import Mathlib

/-!
Verification of the P2P file-sharing application against its specification.

The development embeds, as executable Lean definitions:
* the sender-side `AdaptiveScheduler` of `src/client/src/services/socket.js`
  (`tick`, `sendChunks`, `finalizeTransfer`);
* the receiver side of the same file (`WebRTCClient.handleMessage`,
  `WebRTCClient.downloadFile`);
* the poll-based coordination server `src/server/index.js`
  (rooms registry, join, poll, signal relay, download accounting, stale sweep).

Machine integers of the source are modelled as `Nat`; JavaScript `Map`s are
modelled as association lists (the server only ever creates one entry per key);
JavaScript `Set`s are modelled as duplicate-free lists in insertion order.
-/

namespace P2PShare

/-! ## Sender-side adaptive scheduler (socket.js) -/

/-- `CHUNK_SIZE` in socket.js: 64 KiB chunks. -/
def CHUNK_SIZE : Nat := 65536

/-- `MAX_BUFFER_SIZE` in socket.js: the 2 MiB buffered-bytes ceiling. -/
def MAX_BUFFER_SIZE : Nat := 2 * 1024 * 1024

/-- The fixed per-tick chunk budget (the literal `16` in `AdaptiveScheduler.tick`). -/
def TICK_BUDGET : Nat := 16

/-- A scheduler-owned transfer (the object built in `WebRTCHost.startTransfer`).
The channel handle, byte source and callbacks are modelled separately. -/
structure Transfer where
  offset : Nat
  totalSize : Nat
  chunksSent : Nat
  completed : Bool
  deriving Repr, DecidableEq, Inhabited

/-- The observable state of one transfer's RTCDataChannel at the start of a
scheduler tick.  `isOpen` is `readyState === 'open'`; `buffered` is
`bufferedAmount`.  Within one synchronous tick the buffered amount only grows
(by the size of each sent chunk); it drains only between ticks, so each tick
reads a fresh `ChanState`.  `markerOk` records whether the channel is still
open at the (possibly deferred) moment `finalizeTransfer`'s `sendComplete`
fires after the buffer has drained below its small threshold. -/
structure ChanState where
  isOpen : Bool
  buffered : Nat
  markerOk : Bool
  deriving Repr, DecidableEq, Inhabited

/-- State threaded through the `while` loop of `AdaptiveScheduler.sendChunks`:
the transfer's `offset` and cumulative `chunksSent`, the channel's
`bufferedAmount`, and the loop-local `chunksSent` counter (`sent`). -/
structure LoopSt where
  offset : Nat
  chunksSent : Nat
  buffered : Nat
  sent : Nat
  deriving Repr, DecidableEq, Inhabited

/-- The `while (chunksSent < maxChunks && transfer.offset < totalSize)` loop of
`sendChunks`.  The remaining budget `maxChunks - chunksSent` is the recursion
fuel.  Each iteration: stop if `bufferedAmount >= MAX_BUFFER_SIZE`; otherwise
`dataChannel.send` a slice `[offset, min (offset + CHUNK_SIZE) totalSize)`,
which succeeds when the channel is open (a throw — modelled as the closed
channel case — breaks the loop). Sending grows `bufferedAmount` by the slice
length and advances `offset` to the slice end. -/
def sendLoop (total : Nat) (isOpen : Bool) : Nat → LoopSt → LoopSt
  | 0, s => s
  | b + 1, s =>
    if s.offset < total then
      if MAX_BUFFER_SIZE ≤ s.buffered then s
      else if isOpen then
        let e := min (s.offset + CHUNK_SIZE) total
        sendLoop total isOpen b { offset := e, chunksSent := s.chunksSent + 1,
                                  buffered := s.buffered + (e - s.offset), sent := s.sent + 1 }
      else s
    else s

/-- Result of one `sendChunks` call on one transfer: the updated transfer, a
flag recording whether the one-shot `'complete'` control message of
`finalizeTransfer` was sent, and the number of chunks sent in this call. -/
structure SendOut where
  t : Transfer
  marker : Bool
  sent : Nat
  deriving Repr, DecidableEq, Inhabited

/-- `AdaptiveScheduler.sendChunks(transfer, maxChunks)` followed by the
`finalizeTransfer` call it makes when `offset >= totalSize && !completed`.
`finalizeTransfer` sets `completed := true` and then (via its `sendComplete`
retry loop, which fires at most once) sends the `'complete'` marker exactly
when the channel is still open once the buffer has drained (`c.markerOk`). -/
def sendChunks (t : Transfer) (c : ChanState) (maxChunks : Nat) : SendOut :=
  let r := sendLoop t.totalSize c.isOpen maxChunks
    { offset := t.offset, chunksSent := t.chunksSent, buffered := c.buffered, sent := 0 }
  if t.totalSize ≤ r.offset ∧ t.completed = false then
    { t := { t with offset := r.offset, chunksSent := r.chunksSent, completed := true },
      marker := c.markerOk, sent := r.sent }
  else
    { t := { t with offset := r.offset, chunksSent := r.chunksSent },
      marker := false, sent := r.sent }

/-- The filter of `AdaptiveScheduler.tick` building `activeTransfers`:
not completed, channel open, buffered amount strictly below the ceiling. -/
def isActive (t : Transfer) (c : ChanState) : Bool :=
  !t.completed && c.isOpen && decide (c.buffered < MAX_BUFFER_SIZE)

/-- `chunksPerTransfer = Math.max(1, Math.floor(16 / activeTransfers.length))`. -/
def tickAllot (tcs : List (Transfer × ChanState)) : Nat :=
  Nat.max 1 (TICK_BUDGET / (tcs.filter (fun p => isActive p.1 p.2)).length)

/-- What one tick does to one transfer: active transfers get a `sendChunks`
burst with the computed allotment, inactive ones are untouched. -/
def tickOne (allot : Nat) (p : Transfer × ChanState) : SendOut :=
  if isActive p.1 p.2 then sendChunks p.1 p.2 allot else { t := p.1, marker := false, sent := 0 }

/-- `AdaptiveScheduler.tick`: snapshot the active set, split the fixed budget,
burst each active transfer.  The input pairs each owned transfer with its
channel's state as observed at the start of the tick. -/
def tick (tcs : List (Transfer × ChanState)) : List SendOut :=
  tcs.map (tickOne (tickAllot tcs))

/-- The successive transfer lists produced by running `tick` repeatedly, one
channel-state snapshot list per tick. -/
def runStates (ts : List Transfer) : List (List ChanState) → List (List Transfer)
  | [] => [ts]
  | e :: es => ts :: runStates ((tick (ts.zip e)).map SendOut.t) es

/-- The per-tick `'complete'`-marker flags produced by the same run. -/
def runMarkers (ts : List Transfer) : List (List ChanState) → List (List Bool)
  | [] => []
  | e :: es =>
    (tick (ts.zip e)).map SendOut.marker :: runMarkers ((tick (ts.zip e)).map SendOut.t) es

/-- How many ticks of a run sent the completion marker for the `i`-th transfer. -/
def markerCount (ms : List (List Bool)) (i : Nat) : Nat :=
  (ms.filter fun m => m.getD i false).length

/-! ### Basic list lemmas used by the scheduler proofs -/

theorem getD_mem {α : Type _} (l : List α) (j : Nat) (h : j < l.length) (d : α) :
    l.getD j d ∈ l := by
  induction l generalizing j with
  | nil => simp at h
  | cons a l ih =>
    cases j with
    | zero => simp
    | succ j =>
      simp only [List.getD_cons_succ]
      exact List.mem_cons_of_mem _ (ih j (by simpa using h))

theorem getD_map_of_lt {α β : Type _} (f : α → β) (l : List α) (j : Nat) (h : j < l.length)
    (d : α) (d₂ : β) : (l.map f).getD j d₂ = f (l.getD j d) := by
  induction l generalizing j with
  | nil => simp at h
  | cons a l ih =>
    cases j with
    | zero => simp
    | succ j => simpa using ih j (by simpa using h)

theorem getD_zip_of_lt {α β : Type _} (l : List α) (l₂ : List β) (j : Nat) (h : j < l.length)
    (hlen : l₂.length = l.length) (d : α) (d₂ : β) :
    (l.zip l₂).getD j (d, d₂) = (l.getD j d, l₂.getD j d₂) := by
  induction l generalizing l₂ j with
  | nil => simp at h
  | cons a l ih =>
    cases l₂ with
    | nil => simp at hlen
    | cons b l₂ =>
      cases j with
      | zero => simp [List.zip_cons_cons]
      | succ j =>
        simp only [List.zip_cons_cons, List.getD_cons_succ]
        exact ih l₂ j (by simpa using h) (by simpa using hlen)

/-! ### sendLoop lemmas -/

theorem sendLoop_offset_le (total : Nat) (o : Bool) (b : Nat) (s : LoopSt) :
    s.offset ≤ (sendLoop total o b s).offset := by
  induction b generalizing s with
  | zero => simp [sendLoop]
  | succ b ih =>
    simp only [sendLoop]
    split
    · split
      · exact Nat.le_refl _
      · split
        · refine Nat.le_trans ?_ (ih _)
          simp only
          exact Nat.le_min.mpr ⟨Nat.le_add_right _ _, Nat.le_of_lt (by assumption)⟩
        · exact Nat.le_refl _
    · exact Nat.le_refl _

theorem sendLoop_offset_le_total (total : Nat) (o : Bool) (b : Nat) (s : LoopSt)
    (h : s.offset ≤ total) : (sendLoop total o b s).offset ≤ total := by
  induction b generalizing s with
  | zero => simpa [sendLoop] using h
  | succ b ih =>
    simp only [sendLoop]
    split
    · split
      · exact h
      · split
        · exact ih _ (Nat.min_le_right _ _)
        · exact h
    · exact h

theorem sendLoop_sent_le (total : Nat) (o : Bool) (b : Nat) (s : LoopSt) :
    s.sent ≤ (sendLoop total o b s).sent := by
  induction b generalizing s with
  | zero => simp [sendLoop]
  | succ b ih =>
    simp only [sendLoop]
    split
    · split
      · exact Nat.le_refl _
      · split
        · refine Nat.le_trans ?_ (ih _)
          exact Nat.le_succ _
        · exact Nat.le_refl _
    · exact Nat.le_refl _

/-- When the channel is open, the buffer has room for the whole burst and the
transfer has at least a full burst of data left, the `sendChunks` loop consumes
its entire budget. -/
theorem sendLoop_sent_full (total : Nat) (b : Nat) (s : LoopSt)
    (hbuf : s.buffered + b * CHUNK_SIZE ≤ MAX_BUFFER_SIZE)
    (hdata : s.offset + b * CHUNK_SIZE ≤ total) :
    (sendLoop total true b s).sent = s.sent + b := by
  induction b generalizing s with
  | zero => simp [sendLoop]
  | succ b ih =>
    have hchunk : 0 < CHUNK_SIZE := by decide
    have hmul : (b + 1) * CHUNK_SIZE = b * CHUNK_SIZE + CHUNK_SIZE := Nat.succ_mul b CHUNK_SIZE
    have hoff : s.offset < total := by omega
    have hb2 : ¬ MAX_BUFFER_SIZE ≤ s.buffered := by omega
    have hstep : s.offset + CHUNK_SIZE ≤ total := by omega
    have he : min (s.offset + CHUNK_SIZE) total = s.offset + CHUNK_SIZE :=
      Nat.min_eq_left hstep
    simp only [sendLoop]
    rw [if_pos hoff, if_neg hb2, if_pos trivial]
    simp only [he, Nat.add_sub_cancel_left]
    rw [ih { offset := s.offset + CHUNK_SIZE, chunksSent := s.chunksSent + 1,
             buffered := s.buffered + CHUNK_SIZE, sent := s.sent + 1 }
      (by simp only; omega) (by simp only; omega)]
    simp only
    omega

/-! ### sendChunks lemmas -/

theorem sendChunks_offset_le (t : Transfer) (c : ChanState) (a : Nat) :
    t.offset ≤ (sendChunks t c a).t.offset := by
  unfold sendChunks
  dsimp only
  split <;>
    exact sendLoop_offset_le t.totalSize c.isOpen a { offset := t.offset, chunksSent := t.chunksSent, buffered := c.buffered, sent := (0:Nat) }

theorem sendChunks_offset_le_total (t : Transfer) (c : ChanState) (a : Nat)
    (h : t.offset ≤ t.totalSize) : (sendChunks t c a).t.offset ≤ t.totalSize := by
  unfold sendChunks
  dsimp only
  split <;>
    exact sendLoop_offset_le_total t.totalSize c.isOpen a { offset := t.offset, chunksSent := t.chunksSent, buffered := c.buffered, sent := (0:Nat) } h

theorem sendChunks_totalSize (t : Transfer) (c : ChanState) (a : Nat) :
    (sendChunks t c a).t.totalSize = t.totalSize := by
  unfold sendChunks
  dsimp only
  split <;> rfl

theorem sendChunks_completed_mono (t : Transfer) (c : ChanState) (a : Nat)
    (h : t.completed = true) : (sendChunks t c a).t.completed = true := by
  unfold sendChunks
  dsimp only
  split
  · rfl
  · exact h

theorem sendChunks_marker_spec (t : Transfer) (c : ChanState) (a : Nat)
    (h : (sendChunks t c a).marker = true) :
    t.completed = false ∧ (sendChunks t c a).t.completed = true ∧
      t.totalSize ≤ (sendChunks t c a).t.offset := by
  unfold sendChunks at h ⊢
  dsimp only at h ⊢
  split at h
  · rename_i hcond
    simp only [if_pos hcond]
    exact ⟨hcond.2, by trivial, hcond.1⟩
  · simp at h

/-! ### tickOne and tick lemmas -/

theorem tickOne_offset_le (a : Nat) (p : Transfer × ChanState) :
    p.1.offset ≤ (tickOne a p).t.offset := by
  unfold tickOne
  split
  · exact sendChunks_offset_le _ _ _
  · exact Nat.le_refl _

theorem tickOne_offset_le_total (a : Nat) (p : Transfer × ChanState)
    (h : p.1.offset ≤ p.1.totalSize) : (tickOne a p).t.offset ≤ p.1.totalSize := by
  unfold tickOne
  split
  · exact sendChunks_offset_le_total _ _ _ h
  · exact h

theorem tickOne_totalSize (a : Nat) (p : Transfer × ChanState) :
    (tickOne a p).t.totalSize = p.1.totalSize := by
  unfold tickOne
  split
  · exact sendChunks_totalSize _ _ _
  · rfl

theorem tickOne_of_completed (a : Nat) (p : Transfer × ChanState)
    (h : p.1.completed = true) : tickOne a p = { t := p.1, marker := false, sent := 0 } := by
  unfold tickOne
  rw [if_neg]
  simp [isActive, h]

theorem tickOne_completed_mono (a : Nat) (p : Transfer × ChanState)
    (h : p.1.completed = true) : (tickOne a p).t.completed = true := by
  rw [tickOne_of_completed a p h]
  exact h

theorem tickOne_marker_spec (a : Nat) (p : Transfer × ChanState)
    (h : (tickOne a p).marker = true) :
    p.1.completed = false ∧ (tickOne a p).t.completed = true ∧
      p.1.totalSize ≤ (tickOne a p).t.offset := by
  unfold tickOne at h ⊢
  split at h
  · rename_i hact
    simp only [if_pos hact]
    exact sendChunks_marker_spec _ _ _ h
  · simp at h

theorem tick_length (tcs : List (Transfer × ChanState)) : (tick tcs).length = tcs.length := by
  simp [tick]

theorem tick_getD (tcs : List (Transfer × ChanState)) (i : Nat) (hi : i < tcs.length) :
    (tick tcs).getD i default = tickOne (tickAllot tcs) (tcs.getD i default) := by
  unfold tick
  exact getD_map_of_lt _ _ _ hi _ _

/-! ### Run-level lemmas -/

/-- The transfer list fed to the next tick. -/
def nextTransfers (ts : List Transfer) (e : List ChanState) : List Transfer :=
  (tick (ts.zip e)).map SendOut.t

theorem nextTransfers_length (ts : List Transfer) (e : List ChanState)
    (hlen : e.length = ts.length) : (nextTransfers ts e).length = ts.length := by
  simp [nextTransfers, tick, hlen]

theorem nextTransfers_getD (ts : List Transfer) (e : List ChanState) (i : Nat)
    (hi : i < ts.length) (hlen : e.length = ts.length) :
    (nextTransfers ts e).getD i default =
      (tickOne (tickAllot (ts.zip e)) (ts.getD i default, e.getD i default)).t := by
  unfold nextTransfers
  have h1 : i < (tick (ts.zip e)).length := by
    rw [tick_length, List.length_zip, hlen]
    simpa using hi
  rw [getD_map_of_lt SendOut.t _ _ h1 default default]
  have h2 : i < (ts.zip e).length := by
    rw [List.length_zip, hlen]
    simpa using hi
  rw [tick_getD _ _ h2]
  rw [show (default : Transfer × ChanState) = ((default : Transfer), (default : ChanState)) from rfl]
  rw [getD_zip_of_lt ts e i hi hlen]

theorem nextTransfers_getD_big (ts : List Transfer) (e : List ChanState) (i : Nat)
    (hi : ts.length ≤ i) (hlen : e.length = ts.length) :
    (nextTransfers ts e).getD i default = default := by
  apply List.getD_eq_default
  rw [nextTransfers_length ts e hlen]
  exact hi

theorem runStates_cons (ts : List Transfer) (e : List ChanState) (es : List (List ChanState)) :
    runStates ts (e :: es) = ts :: runStates (nextTransfers ts e) es := rfl

theorem runMarkers_cons (ts : List Transfer) (e : List ChanState) (es : List (List ChanState)) :
    runMarkers ts (e :: es) =
      (tick (ts.zip e)).map SendOut.marker :: runMarkers (nextTransfers ts e) es := rfl

theorem runStates_getD_zero (ts : List Transfer) (envs : List (List ChanState)) :
    (runStates ts envs).getD 0 [] = ts := by
  cases envs <;> rfl

theorem runStates_length (ts : List Transfer) (envs : List (List ChanState)) :
    (runStates ts envs).length = envs.length + 1 := by
  induction envs generalizing ts with
  | nil => rfl
  | cons e es ih => simp [runStates_cons, ih]

theorem markerCount_cons (m : List Bool) (ms : List (List Bool)) (i : Nat) :
    markerCount (m :: ms) i =
      (if m.getD i false = true then 1 else 0) + markerCount ms i := by
  unfold markerCount
  simp only [List.filter_cons]
  split
  · rw [List.length_cons]
    omega
  · omega

/-- `isActive` requires the previous completion flag to be unset; a completed
transfer keeps its state, never re-sends, and never re-emits the marker. -/
theorem tick_marker_getD (ts : List Transfer) (e : List ChanState) (i : Nat)
    (hi : i < ts.length) (hlen : e.length = ts.length) :
    ((tick (ts.zip e)).map SendOut.marker).getD i false =
      (tickOne (tickAllot (ts.zip e)) (ts.getD i default, e.getD i default)).marker := by
  have h1 : i < (tick (ts.zip e)).length := by
    rw [tick_length, List.length_zip, hlen]
    simpa using hi
  rw [getD_map_of_lt SendOut.marker _ _ h1 default false]
  have h2 : i < (ts.zip e).length := by
    rw [List.length_zip, hlen]
    simpa using hi
  rw [tick_getD _ _ h2]
  rw [show (default : Transfer × ChanState) = ((default : Transfer), (default : ChanState)) from rfl]
  rw [getD_zip_of_lt ts e i hi hlen]

theorem tick_marker_getD_big (ts : List Transfer) (e : List ChanState) (i : Nat)
    (hi : ts.length ≤ i) : ((tick (ts.zip e)).map SendOut.marker).getD i false = false := by
  apply List.getD_eq_default
  rw [List.length_map, tick_length]
  exact Nat.le_trans (Nat.le_trans (List.length_zip _ _ ▸ Nat.min_le_left _ _) hi) (Nat.le_refl _)

theorem tickOne_marker_of_completed (a : Nat) (p : Transfer × ChanState)
    (h : p.1.completed = true) : (tickOne a p).marker = false := by
  rw [tickOne_of_completed a p h]

/-- Offsets stay bounded by total sizes, slot-wise (out-of-range slots hold the
all-zero default transfer, for which the bound is trivial). -/
def runWF (ts : List Transfer) : Prop :=
  ∀ j : Nat, (ts.getD j default).offset ≤ (ts.getD j default).totalSize

theorem nextTransfers_wf (ts : List Transfer) (e : List ChanState)
    (hlen : e.length = ts.length) (hwf : runWF ts) : runWF (nextTransfers ts e) := by
  intro j
  by_cases hj : j < ts.length
  · rw [nextTransfers_getD ts e j hj hlen,
        tickOne_totalSize (tickAllot (ts.zip e)) (ts.getD j default, e.getD j default)]
    exact tickOne_offset_le_total _ _ (hwf j)
  · rw [nextTransfers_getD_big ts e j (Nat.le_of_not_lt hj) hlen]
    exact Nat.le_refl _

theorem run_offset_le_total (envs : List (List ChanState)) :
    ∀ ts : List Transfer, runWF ts → (∀ e ∈ envs, e.length = ts.length) →
    ∀ i k : Nat,
      (((runStates ts envs).getD k []).getD i default).offset ≤
        (((runStates ts envs).getD k []).getD i default).totalSize := by
  induction envs with
  | nil =>
    intro ts hwf _ i k
    cases k with
    | zero => exact hwf i
    | succ k =>
      show (((List.nil : List (List Transfer)).getD k []).getD i default).offset ≤ _
      simp only [List.getD_nil]
      exact Nat.le_refl _
  | cons e es ih =>
    intro ts hwf hlen i k
    have hle : e.length = ts.length := hlen e (List.mem_cons_self e es)
    rw [runStates_cons]
    cases k with
    | zero =>
      rw [List.getD_cons_zero]
      exact hwf i
    | succ k =>
      rw [List.getD_cons_succ]
      refine ih (nextTransfers ts e) (nextTransfers_wf ts e hle hwf) (fun e2 he2 => ?_) i k
      rw [nextTransfers_length ts e hle]
      exact hlen e2 (List.mem_cons_of_mem e he2)

theorem run_offset_mono (envs : List (List ChanState)) :
    ∀ ts : List Transfer, (∀ e ∈ envs, e.length = ts.length) →
    ∀ i k : Nat, k + 1 < (runStates ts envs).length →
      (((runStates ts envs).getD k []).getD i default).offset ≤
        (((runStates ts envs).getD (k + 1) []).getD i default).offset := by
  induction envs with
  | nil =>
    intro ts _ i k hk
    rw [runStates_length, List.length_nil] at hk
    omega
  | cons e es ih =>
    intro ts hlen i k hk
    have hle : e.length = ts.length := hlen e (List.mem_cons_self e es)
    cases k with
    | zero =>
      rw [runStates_cons, List.getD_cons_zero, List.getD_cons_succ, runStates_getD_zero]
      by_cases hi : i < ts.length
      · rw [nextTransfers_getD ts e i hi hle]
        exact tickOne_offset_le (tickAllot (ts.zip e)) (ts.getD i default, e.getD i default)
      · rw [nextTransfers_getD_big ts e i (Nat.le_of_not_lt hi) hle,
            List.getD_eq_default _ _ (Nat.le_of_not_lt hi)]
    | succ k =>
      rw [runStates_cons, List.getD_cons_succ, List.getD_cons_succ]
      refine ih (nextTransfers ts e) (fun e2 he2 => ?_) i k ?_
      · rw [nextTransfers_length ts e hle]
        exact hlen e2 (List.mem_cons_of_mem e he2)
      · rw [runStates_cons, List.length_cons] at hk
        omega

theorem run_marker_of_completed (envs : List (List ChanState)) :
    ∀ ts : List Transfer, (∀ e ∈ envs, e.length = ts.length) →
    ∀ i : Nat, (ts.getD i default).completed = true →
      markerCount (runMarkers ts envs) i = 0 := by
  induction envs with
  | nil =>
    intro ts _ i _
    rfl
  | cons e es ih =>
    intro ts hlen i hcomp
    have hle : e.length = ts.length := hlen e (List.mem_cons_self e es)
    by_cases hi : i < ts.length
    · rw [runMarkers_cons, markerCount_cons, tick_marker_getD ts e i hi hle,
          tickOne_marker_of_completed _ _ hcomp]
      rw [if_neg (by simp)]
      have hnext : ((nextTransfers ts e).getD i default).completed = true := by
        rw [nextTransfers_getD ts e i hi hle]
        exact tickOne_completed_mono _ _ hcomp
      rw [ih (nextTransfers ts e) (fun e2 he2 => by
        rw [nextTransfers_length ts e hle]
        exact hlen e2 (List.mem_cons_of_mem e he2)) i hnext]
    · rw [List.getD_eq_default _ _ (Nat.le_of_not_lt hi)] at hcomp
      exact absurd hcomp (by decide)

theorem run_markerCount_le_one (envs : List (List ChanState)) :
    ∀ ts : List Transfer, (∀ e ∈ envs, e.length = ts.length) →
    ∀ i : Nat, markerCount (runMarkers ts envs) i ≤ 1 := by
  induction envs with
  | nil =>
    intro ts _ i
    exact Nat.zero_le _
  | cons e es ih =>
    intro ts hlen i
    have hle : e.length = ts.length := hlen e (List.mem_cons_self e es)
    have hlen2 : ∀ e2 ∈ es, e2.length = (nextTransfers ts e).length := fun e2 he2 => by
      rw [nextTransfers_length ts e hle]
      exact hlen e2 (List.mem_cons_of_mem e he2)
    rw [runMarkers_cons, markerCount_cons]
    by_cases hi : i < ts.length
    · rw [tick_marker_getD ts e i hi hle]
      by_cases hm : (tickOne (tickAllot (ts.zip e)) (ts.getD i default, e.getD i default)).marker
        = true
      · rw [if_pos hm]
        have hnext : ((nextTransfers ts e).getD i default).completed = true := by
          rw [nextTransfers_getD ts e i hi hle]
          exact (tickOne_marker_spec _ _ hm).2.1
        rw [run_marker_of_completed es (nextTransfers ts e) hlen2 i hnext]
      · rw [if_neg hm]
        have := ih (nextTransfers ts e) hlen2 i
        omega
    · rw [tick_marker_getD_big ts e i (Nat.le_of_not_lt hi)]
      rw [if_neg (by simp)]
      have := ih (nextTransfers ts e) hlen2 i
      omega

theorem run_marker_imp (envs : List (List ChanState)) :
    ∀ ts : List Transfer, runWF ts → (∀ e ∈ envs, e.length = ts.length) →
    ∀ i k : Nat, ((runMarkers ts envs).getD k []).getD i false = true →
      (((runStates ts envs).getD (k + 1) []).getD i default).offset =
        (((runStates ts envs).getD (k + 1) []).getD i default).totalSize ∧
      (((runStates ts envs).getD k []).getD i default).completed = false ∧
      (((runStates ts envs).getD (k + 1) []).getD i default).completed = true := by
  induction envs with
  | nil =>
    intro ts _ _ i k h
    simp [runMarkers] at h
  | cons e es ih =>
    intro ts hwf hlen i k h
    have hle : e.length = ts.length := hlen e (List.mem_cons_self e es)
    have hlen2 : ∀ e2 ∈ es, e2.length = (nextTransfers ts e).length := fun e2 he2 => by
      rw [nextTransfers_length ts e hle]
      exact hlen e2 (List.mem_cons_of_mem e he2)
    cases k with
    | zero =>
      rw [runMarkers_cons, List.getD_cons_zero] at h
      by_cases hi : i < ts.length
      · rw [tick_marker_getD ts e i hi hle] at h
        have spec := tickOne_marker_spec _ _ h
        rw [runStates_cons, List.getD_cons_zero, List.getD_cons_succ, runStates_getD_zero]
        refine ⟨?_, spec.1, ?_⟩
        · rw [nextTransfers_getD ts e i hi hle,
              tickOne_totalSize (tickAllot (ts.zip e)) (ts.getD i default, e.getD i default)]
          exact Nat.le_antisymm (tickOne_offset_le_total _ _ (hwf i)) spec.2.2
        · rw [nextTransfers_getD ts e i hi hle]
          exact spec.2.1
      · rw [tick_marker_getD_big ts e i (Nat.le_of_not_lt hi)] at h
        exact absurd h (by decide)
    | succ k =>
      rw [runMarkers_cons, List.getD_cons_succ] at h
      rw [runStates_cons, List.getD_cons_succ, List.getD_cons_succ]
      exact ih (nextTransfers ts e) (nextTransfers_wf ts e hle hwf) hlen2 i k h

/-- One open burst with room in the buffer and remaining data always sends at
least one chunk. -/
theorem sendLoop_sent_pos (total : Nat) (b : Nat) (s : LoopSt)
    (hb : 1 ≤ b) (hoff : s.offset < total) (hbuf : s.buffered < MAX_BUFFER_SIZE) :
    1 ≤ (sendLoop total true b s).sent := by
  cases b with
  | zero => omega
  | succ b =>
    simp only [sendLoop]
    rw [if_pos hoff, if_neg (Nat.not_le.mpr hbuf), if_pos trivial]
    have h := sendLoop_sent_le total true b
      { offset := min (s.offset + CHUNK_SIZE) total, chunksSent := s.chunksSent + 1,
        buffered := s.buffered + (min (s.offset + CHUNK_SIZE) total - s.offset),
        sent := s.sent + 1 }
    simp only at h
    omega

/-- C1: for every transfer owned by the sender-side scheduler, across any run
of scheduler ticks (any channel-state observations of matching shape), the
transfer's `offset` is monotonically non-decreasing, never exceeds
`totalSize`, and the `'complete'` control message is sent at most once for
that transfer, with any such send happening at a tick where the transfer was
not yet complete and its new offset equals `totalSize`. -/
theorem transfer_offset_monotone_and_marker_once
    (ts : List Transfer) (envs : List (List ChanState))
    (hwf : ∀ t ∈ ts, t.offset ≤ t.totalSize)
    (hlen : ∀ e ∈ envs, e.length = ts.length) (i : Nat) :
    (∀ k : Nat, k + 1 < (runStates ts envs).length →
       (((runStates ts envs).getD k []).getD i default).offset ≤
         (((runStates ts envs).getD (k + 1) []).getD i default).offset) ∧
    (∀ k : Nat, (((runStates ts envs).getD k []).getD i default).offset ≤
         (((runStates ts envs).getD k []).getD i default).totalSize) ∧
    markerCount (runMarkers ts envs) i ≤ 1 ∧
    (∀ k : Nat, ((runMarkers ts envs).getD k []).getD i false = true →
       (((runStates ts envs).getD (k + 1) []).getD i default).offset =
         (((runStates ts envs).getD (k + 1) []).getD i default).totalSize ∧
       (((runStates ts envs).getD k []).getD i default).completed = false ∧
       (((runStates ts envs).getD (k + 1) []).getD i default).completed = true) := by
  have hwfD : runWF ts := by
    intro j
    by_cases hj : j < ts.length
    · exact hwf _ (getD_mem ts j hj default)
    · rw [List.getD_eq_default _ _ (Nat.le_of_not_lt hj)]
      exact Nat.le_refl _
  exact ⟨fun k hk => run_offset_mono envs ts hlen i k hk,
         fun k => run_offset_le_total envs ts hwfD hlen i k,
         run_markerCount_le_one envs ts hlen i,
         fun k h => run_marker_imp envs ts hwfD hlen i k h⟩

/-- Witness for C1: a two-tick run of one 128 KiB transfer sends the
completion marker exactly once, hence at most once. -/
theorem transfer_offset_monotone_and_marker_once_witness :
    markerCount (runMarkers [(⟨0, 131072, 0, false⟩ : Transfer)]
      [[(⟨true, 0, true⟩ : ChanState)], [(⟨true, 0, true⟩ : ChanState)]]) 0 ≤ 1 :=
  (transfer_offset_monotone_and_marker_once [(⟨0, 131072, 0, false⟩ : Transfer)]
    [[(⟨true, 0, true⟩ : ChanState)], [(⟨true, 0, true⟩ : ChanState)]]
    (by decide) (by decide) 0).2.2.1

/-- C2 (amended): in a tick, every transfer of the active set (incomplete,
channel open, buffered bytes below the ceiling) that still has data left is
sent at least one chunk — never zero — and is sent its full allotment
`max 1 (16 / N)` whenever its channel also has buffer room for the whole
burst and the transfer has at least a full burst of data remaining.  The
original claim that `floor(16/N)` chunks are always sent fails because
`bufferedAmount` grows by the chunk size at each send inside the burst and
the loop stops once it reaches the ceiling (see the counterexample). -/
theorem tick_fairness
    (tcs : List (Transfer × ChanState)) (i : Nat) (hi : i < tcs.length)
    (hact : isActive (tcs.getD i default).1 (tcs.getD i default).2 = true)
    (hrem : (tcs.getD i default).1.offset < (tcs.getD i default).1.totalSize) :
    1 ≤ ((tick tcs).getD i default).sent ∧
    ((tcs.getD i default).2.buffered + tickAllot tcs * CHUNK_SIZE ≤ MAX_BUFFER_SIZE →
      (tcs.getD i default).1.offset + tickAllot tcs * CHUNK_SIZE ≤
        (tcs.getD i default).1.totalSize →
      ((tick tcs).getD i default).sent = tickAllot tcs) := by
  obtain ⟨hcomp, hopen, hbuf⟩ :
      (tcs.getD i default).1.completed = false ∧
        (tcs.getD i default).2.isOpen = true ∧
        (tcs.getD i default).2.buffered < MAX_BUFFER_SIZE := by
    simpa [isActive, and_assoc] using hact
  have key1 : 1 ≤ (sendLoop (tcs.getD i default).1.totalSize (tcs.getD i default).2.isOpen
      (tickAllot tcs)
      { offset := (tcs.getD i default).1.offset, chunksSent := (tcs.getD i default).1.chunksSent,
        buffered := (tcs.getD i default).2.buffered, sent := 0 }).sent := by
    rw [hopen]
    exact sendLoop_sent_pos _ _ _ (Nat.le_max_left 1 _) hrem hbuf
  have key2 : (tcs.getD i default).2.buffered + tickAllot tcs * CHUNK_SIZE ≤ MAX_BUFFER_SIZE →
      (tcs.getD i default).1.offset + tickAllot tcs * CHUNK_SIZE ≤
        (tcs.getD i default).1.totalSize →
      (sendLoop (tcs.getD i default).1.totalSize (tcs.getD i default).2.isOpen (tickAllot tcs)
        { offset := (tcs.getD i default).1.offset,
          chunksSent := (tcs.getD i default).1.chunksSent,
          buffered := (tcs.getD i default).2.buffered, sent := 0 }).sent = tickAllot tcs := by
    intro h1 h2
    rw [hopen]
    have h := sendLoop_sent_full (tcs.getD i default).1.totalSize (tickAllot tcs)
      { offset := (tcs.getD i default).1.offset, chunksSent := (tcs.getD i default).1.chunksSent,
        buffered := (tcs.getD i default).2.buffered, sent := 0 }
      (by simp only; exact h1) (by simp only; exact h2)
    simpa using h
  rw [tick_getD tcs i hi]
  unfold tickOne
  rw [if_pos hact]
  unfold sendChunks
  dsimp only
  constructor
  · split
    · exact key1
    · exact key1
  · intro h1 h2
    split
    · exact key2 h1 h2
    · exact key2 h1 h2

/-- C2 counterexample: one active transfer (so `floor(16/N) = 16`), channel
open, buffered amount `MAX_BUFFER_SIZE - 1` — still strictly below the
ceiling, so the transfer is in the tick's active set and has plenty of data
left — yet the tick sends it only 1 chunk, not 16: the first send pushes the
buffered amount past the ceiling and ends the burst. -/
theorem tick_fairness_counterexample :
    isActive (⟨0, 1310720, 0, false⟩ : Transfer)
      (⟨true, MAX_BUFFER_SIZE - 1, true⟩ : ChanState) = true ∧
    (0 : Nat) < 1310720 ∧
    TICK_BUDGET / ([((⟨0, 1310720, 0, false⟩ : Transfer),
      (⟨true, MAX_BUFFER_SIZE - 1, true⟩ : ChanState))].filter
        (fun p => isActive p.1 p.2)).length = 16 ∧
    ((tick [((⟨0, 1310720, 0, false⟩ : Transfer),
      (⟨true, MAX_BUFFER_SIZE - 1, true⟩ : ChanState))]).getD 0 default).sent = 1 := by
  decide

/-- Witness for C2: one active transfer with an empty buffer receives its
full 16-chunk allotment. -/
theorem tick_fairness_witness :
    ((tick [((⟨0, 1310720, 0, false⟩ : Transfer),
      (⟨true, 0, true⟩ : ChanState))]).getD 0 default).sent =
    tickAllot [((⟨0, 1310720, 0, false⟩ : Transfer), (⟨true, 0, true⟩ : ChanState))] :=
  (tick_fairness
    [((⟨0, 1310720, 0, false⟩ : Transfer), (⟨true, 0, true⟩ : ChanState))]
    0 (by decide) (by decide) (by decide)).2 (by decide) (by decide)

/-! ## Receiver side (WebRTCClient in socket.js) -/

/-- The `metadata` control message sent once by `WebRTCHost.startTransfer`
(`{ type: 'metadata', name, size, mimeType }`). -/
structure FileMeta where
  name : String
  size : Nat
  mimeType : String
  deriving Repr, DecidableEq, Inhabited

/-- One entry of `WebRTCClient.fileBuffers`: optional metadata (unset until
the control message arrives), the binary chunks in receipt order (each a byte
list), the accumulated `receivedSize`, and the throughput-accounting
`startTime` (null until metadata arrives). -/
structure RecvBuffer where
  metadata : Option FileMeta
  chunks : List (List Nat)
  receivedSize : Nat
  startTime : Option Nat
  deriving Repr, DecidableEq, Inhabited

/-- A message arriving on the receiving data channel, as discriminated by
`WebRTCClient.handleMessage`: a parsed string with `type: 'metadata'`, a
parsed string with `type: 'complete'`, any other/unparseable string, or a
binary chunk. -/
inductive WireMsg where
  | metadata (m : FileMeta)
  | complete
  | otherString
  | chunk (data : List Nat)
  deriving Repr, DecidableEq

/-- `WebRTCClient.downloadFile(fileId)`: bails out (keeping the buffer) when
the buffer has no metadata; otherwise assembles the accumulated chunks, in
receipt order, into the final artifact (the `Blob`), deletes the buffer, and
runs the completion path.  The returned pair is the new buffer entry and the
artifact (blob bytes and metadata) handed to the completion path, if any.
No comparison of `receivedSize` against `metadata.size` is made. -/
def downloadFile (b : RecvBuffer) : Option RecvBuffer × Option (List Nat × FileMeta) :=
  match b.metadata with
  | none => (some b, none)
  | some m => (none, some (b.chunks.flatten, m))

/-- `WebRTCClient.handleMessage(fileId, data)` acting on the `fileBuffers`
entry for `fileId` (`none` when no entry exists — the handler returns at
once).  `now` is `Date.now()` read when metadata arrives. -/
def handleMessage (buf : Option RecvBuffer) (msg : WireMsg) (now : Nat) :
    Option RecvBuffer × Option (List Nat × FileMeta) :=
  match buf with
  | none => (none, none)
  | some b =>
    match msg with
    | .metadata m => (some { b with metadata := some m, startTime := some now }, none)
    | .complete => downloadFile b
    | .otherString => (some b, none)
    | .chunk data =>
      (some { b with chunks := b.chunks ++ [data],
                     receivedSize := b.receivedSize + data.length }, none)

/-- C8: a `'complete'` control message makes the receiver assemble the
accumulated chunks into the final artifact and run the completion path even
when `receivedSize` is strictly below the declared metadata size — the
receiver trusts the marker and performs no byte-count check before
completing. -/
theorem complete_marker_trusted (b : RecvBuffer) (m : FileMeta) (now : Nat)
    (hmeta : b.metadata = some m) (hshort : b.receivedSize < m.size) :
    handleMessage (some b) WireMsg.complete now = (none, some (b.chunks.flatten, m)) := by
  show downloadFile b = (none, some (b.chunks.flatten, m))
  unfold downloadFile
  rw [hmeta]

/-- Witness for C8: a buffer that declared 100 bytes but received only 3
is still assembled and completed on the marker. -/
theorem complete_marker_trusted_witness :
    handleMessage (some ⟨some ⟨"a.txt", 100, "text/plain"⟩, [[1, 2, 3]], 3, some 0⟩)
        WireMsg.complete 7 =
      (none, some ([1, 2, 3], ⟨"a.txt", 100, "text/plain"⟩)) :=
  complete_marker_trusted ⟨some ⟨"a.txt", 100, "text/plain"⟩, [[1, 2, 3]], 3, some 0⟩
    ⟨"a.txt", 100, "text/plain"⟩ 7 rfl (by decide)

/-! ## Coordination server (src/server/index.js)

The server keeps `rooms : Map<roomId, room>`; each room holds the host
identity and liveness timestamp, the offered file list and its update stamp,
a `Map` of client sessions, the host's signal mailbox, and the
`activeDownloads` index `Map<fileId, Set<clientId>>`.  `Map`s are embedded as
association lists in insertion order (`Map.set` of a fresh key appends);
`Set`s as duplicate-free lists in insertion order.  Timestamps (`Date.now()`)
are explicit `Nat` parameters.  JavaScript's falsy test `!room.hostId` is
embedded as equality with the empty string. -/

/-- `STALE_TIMEOUT` in src/server/index.js (30 seconds, in milliseconds). -/
def STALE_TIMEOUT : Nat := 30000

/-- A relayed signal as built by the `/signal` and `/request-file` endpoints:
`{ fromId, type, data, fileId, timestamp }`.  The opaque payload is embedded
as a string (the `file-request` signal, which carries no payload, uses `""`). -/
structure Signal where
  fromId : String
  type : String
  data : String
  fileId : String
  timestamp : Nat
  deriving Repr, DecidableEq, Inhabited

/-- One entry of `room.clients`: `{ lastSeen, signals, filesVersion }`. -/
structure ClientSession where
  lastSeen : Nat
  signals : List Signal
  filesVersion : Nat
  deriving Repr, DecidableEq, Inhabited

/-- A `FileDescriptor` offered by the host.  The server stores the list
opaquely (`room.files = files`). -/
structure FileD where
  id : String
  name : String
  size : Nat
  type : String
  deriving Repr, DecidableEq, Inhabited

/-- One room record, as created by the `/host` endpoint.  `filesUpdatedAt`
starts at 0 (the field is absent in a fresh room and every read of it in the
source defaults it with `|| 0`). -/
structure Room where
  hostId : String
  hostLastSeen : Nat
  files : List FileD
  clients : List (String × ClientSession)
  hostSignals : List Signal
  activeDownloads : List (String × List String)
  filesUpdatedAt : Nat
  deriving Repr, DecidableEq, Inhabited

/-- The room built by `/host` when the `roomId` is new. -/
def newRoom (hid : String) (now : Nat) : Room :=
  { hostId := hid, hostLastSeen := now, files := [], clients := [],
    hostSignals := [], activeDownloads := [], filesUpdatedAt := 0 }

/-- `room.clients.get(clientId)`. -/
def getClient (room : Room) (cid : String) : Option ClientSession :=
  (room.clients.find? (fun p => p.1 == cid)).map Prod.snd

/-- `room.activeDownloads.get(fileId)`, read as the set of downloader
identities (a missing key reads as the empty set). -/
def adLookup (ad : List (String × List String)) (fid : String) : List String :=
  ((ad.find? (fun p => p.1 == fid)).map Prod.snd).getD []

/-- `/request-file` bookkeeping: `if (!activeDownloads.has(fileId))
set(fileId, new Set()); activeDownloads.get(fileId).add(clientId)`.
`Set.add` is a no-op on a present member and appends otherwise. -/
def adAdd : List (String × List String) → String → String → List (String × List String)
  | [], fid, cid => [(fid, [cid])]
  | p :: ad, fid, cid =>
    if p.1 == fid then (p.1, if p.2.contains cid then p.2 else p.2 ++ [cid]) :: ad
    else p :: adAdd ad fid cid

/-- `/download-complete` bookkeeping: `downloaders.delete(clientId); if
(downloaders.size === 0) activeDownloads.delete(fileId)` when the key exists. -/
def adRemove : List (String × List String) → String → String → List (String × List String)
  | [], _, _ => []
  | p :: ad, fid, cid =>
    if p.1 == fid then
      (if (p.2.filter fun c => c != cid).isEmpty then ad
       else (p.1, p.2.filter fun c => c != cid) :: ad)
    else p :: adRemove ad fid cid

/-- The cleanup loop shared by `/leave` and the stale-client sweep: delete
`cid` from every per-file set and drop sets that become empty. -/
def adRemoveClient (ad : List (String × List String)) (cid : String) :
    List (String × List String) :=
  (ad.map fun p => (p.1, p.2.filter fun c => c != cid)).filter fun p => !p.2.isEmpty

/-- The room-level effect of `POST /api/rooms/:roomId/join` on an existing
hosted room: insert a fresh session or refresh `lastSeen`. -/
def joinR (cid : String) (now : Nat) (room : Room) : Room :=
  if (getClient room cid).isSome then
    { room with clients := room.clients.map fun p =>
        if p.1 == cid then (p.1, { p.2 with lastSeen := now }) else p }
  else
    { room with clients := room.clients ++ [(cid, ⟨now, [], 0⟩)] }

/-- What `POST /api/rooms/:roomId/join` returns on success. -/
structure JoinResp where
  files : List FileD
  hostId : String
  deriving Repr, DecidableEq

/-- What `GET /api/rooms/:roomId/client/:clientId/poll` returns. -/
structure ClientPollResp where
  signals : List Signal
  files : List FileD
  hostOnline : Bool
  hostId : String
  filesUpdatedAt : Nat
  deriving Repr, DecidableEq

/-- What `GET /api/rooms/:roomId/host/poll` returns. -/
structure HostPollResp where
  signals : List Signal
  clientCount : Nat
  peerCounts : List (String × Nat)
  clients : List String
  deriving Repr, DecidableEq

/-- Room-level effect and response of the client poll: re-register the
session if it vanished, else refresh `lastSeen`; report host liveness; drain
the session's mailbox atomically. -/
def clientPollR (cid : String) (now : Nat) (room : Room) : ClientPollResp × Room :=
  match getClient room cid with
  | none =>
    (⟨[], room.files, decide (now - room.hostLastSeen < STALE_TIMEOUT), room.hostId,
       room.filesUpdatedAt⟩,
     { room with clients := room.clients ++ [(cid, ⟨now, [], 0⟩)] })
  | some s =>
    (⟨s.signals, room.files, decide (now - room.hostLastSeen < STALE_TIMEOUT), room.hostId,
       room.filesUpdatedAt⟩,
     { room with clients := room.clients.map fun p =>
         if p.1 == cid then (p.1, { p.2 with lastSeen := now, signals := [] }) else p })

/-- `getFileDownloadCounts(room)`. -/
def getFileDownloadCounts (room : Room) : List (String × Nat) :=
  room.activeDownloads.map fun p => (p.1, p.2.length)

/-- Room-level effect and response of the host poll: refresh host liveness
and drain the host mailbox atomically. -/
def hostPollR (now : Nat) (room : Room) : HostPollResp × Room :=
  (⟨room.hostSignals, room.clients.length, getFileDownloadCounts room,
     room.clients.map Prod.fst⟩,
   { room with hostLastSeen := now, hostSignals := [] })

/-- Room-level effect of `POST /api/rooms/:roomId/files`. -/
def setFilesR (files : List FileD) (now : Nat) (room : Room) : Room :=
  { room with files := files, filesUpdatedAt := now }

/-- The signal object built by `POST /api/rooms/:roomId/signal`. -/
def mkSignal (fromId ty data fileId : String) (now : Nat) : Signal :=
  ⟨fromId, ty, data, fileId, now⟩

/-- Room-level effect of `POST /api/rooms/:roomId/signal`: append to the
host mailbox when `toId` is the host identity or the sentinel `"host"`; else
append to the named client's mailbox when that session exists; else drop. -/
def relayR (fromId toId ty data fileId : String) (now : Nat) (room : Room) : Room :=
  if toId == room.hostId || toId == "host" then
    { room with hostSignals := room.hostSignals ++ [mkSignal fromId ty data fileId now] }
  else
    match getClient room toId with
    | some _ =>
      { room with clients := room.clients.map fun p =>
          if p.1 == toId then
            (p.1, { p.2 with signals := p.2.signals ++ [mkSignal fromId ty data fileId now] })
          else p }
    | none => room

/-- Room-level effect of `POST /api/rooms/:roomId/request-file`: record the
download and enqueue a `file-request` signal to the host mailbox. -/
def requestFileR (cid fid : String) (now : Nat) (room : Room) : Room :=
  { room with
    activeDownloads := adAdd room.activeDownloads fid cid,
    hostSignals := room.hostSignals ++
      [{ fromId := cid, type := "file-request", data := "", fileId := fid, timestamp := now }] }

/-- Room-level effect of `POST /api/rooms/:roomId/download-complete`. -/
def downloadCompleteR (cid fid : String) (room : Room) : Room :=
  { room with activeDownloads := adRemove room.activeDownloads fid cid }

/-- Room-level effect of `POST /api/rooms/:roomId/leave`. -/
def leaveR (cid : String) (room : Room) : Room :=
  { room with clients := room.clients.filter fun p => p.1 != cid,
              activeDownloads := adRemoveClient room.activeDownloads cid }

/-- Whether the sweep evicts the session `p` at time `now`
(`now - client.lastSeen > STALE_TIMEOUT`, with JavaScript's signed
subtraction embedded as truncated `Nat` subtraction — both comparisons agree
for all inputs). -/
def staleClient (now : Nat) (p : String × ClientSession) : Bool :=
  decide (STALE_TIMEOUT < now - p.2.lastSeen)

/-- The per-room half of the sweep interval: evict every stale client session
and purge each evicted identity from `activeDownloads` as on leave. -/
def sweepClientsR (now : Nat) (room : Room) : Room :=
  { room with
    clients := room.clients.filter fun p => !staleClient now p,
    activeDownloads :=
      ((room.clients.filter (staleClient now)).map Prod.fst).foldl adRemoveClient
        room.activeDownloads }

/-- The whole server state. -/
abbrev Rooms := List (String × Room)

/-- `rooms.get(roomId)`. -/
def lookupRoom (rooms : Rooms) (rid : String) : Option Room :=
  (rooms.find? (fun p => p.1 == rid)).map Prod.snd

/-- Apply `f` to the room stored under `rid` (leaving other rooms alone). -/
def updateRoom (rooms : Rooms) (rid : String) (f : Room → Room) : Rooms :=
  rooms.map fun p => if p.1 == rid then (p.1, f p.2) else p

/-- The only error the modelled endpoints produce: HTTP 404. -/
inductive ApiError where
  | roomNotFound
  deriving Repr, DecidableEq

/-- `POST /api/rooms/:roomId/host`: create the room if absent, else overwrite
the host identity and refresh its liveness. Never errors. -/
def registerHost (rooms : Rooms) (rid hid : String) (now : Nat) : Rooms :=
  if (lookupRoom rooms rid).isSome then
    updateRoom rooms rid fun r => { r with hostId := hid, hostLastSeen := now }
  else
    rooms ++ [(rid, newRoom hid now)]

/-- `POST /api/rooms/:roomId/join`. -/
def joinRoom (rooms : Rooms) (rid cid : String) (now : Nat) :
    Except ApiError (JoinResp × Rooms) :=
  match lookupRoom rooms rid with
  | none => .error .roomNotFound
  | some r =>
    if r.hostId == "" then .error .roomNotFound
    else .ok (⟨r.files, r.hostId⟩, updateRoom rooms rid (joinR cid now))

/-- `GET /api/rooms/:roomId/host/poll`. -/
def hostPoll (rooms : Rooms) (rid : String) (now : Nat) :
    Except ApiError (HostPollResp × Rooms) :=
  match lookupRoom rooms rid with
  | none => .error .roomNotFound
  | some r => .ok ((hostPollR now r).1, updateRoom rooms rid fun r2 => (hostPollR now r2).2)

/-- `GET /api/rooms/:roomId/client/:clientId/poll`. -/
def clientPoll (rooms : Rooms) (rid cid : String) (now : Nat) :
    Except ApiError (ClientPollResp × Rooms) :=
  match lookupRoom rooms rid with
  | none => .error .roomNotFound
  | some r =>
    .ok ((clientPollR cid now r).1, updateRoom rooms rid fun r2 => (clientPollR cid now r2).2)

/-- `POST /api/rooms/:roomId/files`. -/
def setFiles (rooms : Rooms) (rid : String) (files : List FileD) (now : Nat) :
    Except ApiError Rooms :=
  match lookupRoom rooms rid with
  | none => .error .roomNotFound
  | some _ => .ok (updateRoom rooms rid (setFilesR files now))

/-- `POST /api/rooms/:roomId/signal`. -/
def relaySignal (rooms : Rooms) (rid fromId toId ty data fileId : String) (now : Nat) :
    Except ApiError Rooms :=
  match lookupRoom rooms rid with
  | none => .error .roomNotFound
  | some _ => .ok (updateRoom rooms rid (relayR fromId toId ty data fileId now))

/-- `POST /api/rooms/:roomId/request-file`. -/
def requestFile (rooms : Rooms) (rid cid fid : String) (now : Nat) :
    Except ApiError Rooms :=
  match lookupRoom rooms rid with
  | none => .error .roomNotFound
  | some _ => .ok (updateRoom rooms rid (requestFileR cid fid now))

/-- `POST /api/rooms/:roomId/download-complete`. -/
def downloadComplete (rooms : Rooms) (rid cid fid : String) : Except ApiError Rooms :=
  match lookupRoom rooms rid with
  | none => .error .roomNotFound
  | some _ => .ok (updateRoom rooms rid (downloadCompleteR cid fid))

/-- `POST /api/rooms/:roomId/leave` (succeeds even on a missing room). -/
def leaveRoom (rooms : Rooms) (rid cid : String) : Rooms :=
  updateRoom rooms rid (leaveR cid)

/-- `POST /api/rooms/:roomId/close`. -/
def closeRoom (rooms : Rooms) (rid : String) : Rooms :=
  rooms.filter fun p => p.1 != rid

/-- One firing of the cleanup `setInterval`: delete every room whose host
liveness lapsed (`now - hostLastSeen > STALE_TIMEOUT`), and inside surviving
rooms evict stale client sessions with their `activeDownloads` entries. -/
def sweep (rooms : Rooms) (now : Nat) : Rooms :=
  rooms.filterMap fun p =>
    if STALE_TIMEOUT < now - p.2.hostLastSeen then none
    else some (p.1, sweepClientsR now p.2)

/-! ### Association-list lemmas shared by the server proofs -/

theorem find?_value_update {β : Type _} (l : List (String × β)) (k : String) (g : β → β) :
    ((l.map fun p => if p.1 == k then (p.1, g p.2) else p).find? (fun p => p.1 == k)).map
        Prod.snd =
      ((l.find? (fun p => p.1 == k)).map Prod.snd).map g := by
  induction l with
  | nil => rfl
  | cons p l ih =>
    by_cases hp : p.1 = k
    · simp [hp]
    · have hp2 : (p.1 == k) = false := by simpa using hp
      simp only [List.map_cons, hp2, Bool.false_eq_true, if_false, List.find?_cons, hp2]
      exact ih

theorem find?_update_other {β : Type _} (l : List (String × β)) (k k2 : String) (g : β → β)
    (h : k2 ≠ k) :
    (l.map fun p => if p.1 == k then (p.1, g p.2) else p).find? (fun p => p.1 == k2) =
      l.find? (fun p => p.1 == k2) := by
  induction l with
  | nil => rfl
  | cons p l ih =>
    simp only [List.map_cons]
    by_cases hq : p.1 = k2
    · have hpk : ¬ (p.1 == k) = true := by
        simp only [beq_iff_eq]
        intro he
        exact h (hq ▸ he)
      rw [if_neg hpk]
      have hq1 : (p.1 == k2) = true := by simpa using hq
      simp only [List.find?_cons, hq1]
    · have hq2 : (p.1 == k2) = false := by simpa using hq
      by_cases hp : p.1 = k
      · have hp1 : (p.1 == k) = true := by simpa using hp
        rw [if_pos hp1]
        simp only [List.find?_cons, hq2]
        exact ih
      · have hp2 : ¬ (p.1 == k) = true := by simpa using hp
        rw [if_neg hp2]
        simp only [List.find?_cons, hq2]
        exact ih

theorem map_fst_update {β : Type _} (l : List (String × β)) (k : String) (g : β → β) :
    (l.map fun p => if p.1 == k then (p.1, g p.2) else p).map Prod.fst = l.map Prod.fst := by
  induction l with
  | nil => rfl
  | cons p l ih =>
    simp only [List.map_cons]
    rw [ih]
    by_cases hp : p.1 = k
    · have hp1 : (p.1 == k) = true := by simpa using hp
      rw [if_pos hp1]
    · have hp2 : ¬ (p.1 == k) = true := by simpa using hp
      rw [if_neg hp2]

theorem lookupRoom_updateRoom_self (rooms : Rooms) (rid : String) (f : Room → Room) :
    lookupRoom (updateRoom rooms rid f) rid = (lookupRoom rooms rid).map f :=
  find?_value_update rooms rid f

theorem lookupRoom_updateRoom_other (rooms : Rooms) (rid rid2 : String) (f : Room → Room)
    (h : rid2 ≠ rid) : lookupRoom (updateRoom rooms rid f) rid2 = lookupRoom rooms rid2 := by
  unfold lookupRoom updateRoom
  rw [find?_update_other rooms rid rid2 f h]

theorem getClient_update_self (room : Room) (cid : String) (g : ClientSession → ClientSession) :
    getClient { room with clients := room.clients.map fun p =>
        if p.1 == cid then (p.1, g p.2) else p } cid = (getClient room cid).map g :=
  find?_value_update room.clients cid g

theorem getClient_update_other (room : Room) (cid cid2 : String)
    (g : ClientSession → ClientSession) (h : cid2 ≠ cid) :
    getClient { room with clients := room.clients.map fun p =>
        if p.1 == cid then (p.1, g p.2) else p } cid2 = getClient room cid2 := by
  unfold getClient
  rw [find?_update_other room.clients cid cid2 g h]

theorem getClient_append_new (room : Room) (cid : String) (s : ClientSession)
    (h : getClient room cid = none) :
    getClient { room with clients := room.clients ++ [(cid, s)] } cid = some s := by
  unfold getClient at h ⊢
  simp only [List.find?_append]
  have h2 : room.clients.find? (fun p => p.1 == cid) = none := by
    cases hf : room.clients.find? (fun p => p.1 == cid) with
    | none => rfl
    | some q => rw [hf] at h; simp at h
  rw [h2]
  simp

/-! ### activeDownloads lemmas -/

theorem adLookup_nil (fid : String) : adLookup [] fid = [] := rfl

theorem adLookup_cons_self (p : String × List String) (ad : List (String × List String))
    (fid : String) (h : (p.1 == fid) = true) : adLookup (p :: ad) fid = p.2 := by
  unfold adLookup
  rw [@List.find?_cons_of_pos _ (fun q => q.1 == fid) p ad h]
  rfl

theorem adLookup_cons_other (p : String × List String) (ad : List (String × List String))
    (fid : String) (h : (p.1 == fid) = false) : adLookup (p :: ad) fid = adLookup ad fid := by
  unfold adLookup
  rw [@List.find?_cons_of_neg _ (fun q => q.1 == fid) p ad (by simp [h])]

theorem adLookup_eq_nil_of_not_mem (ad : List (String × List String)) (fid : String)
    (h : fid ∉ ad.map Prod.fst) : adLookup ad fid = [] := by
  unfold adLookup
  have h2 : ad.find? (fun p => p.1 == fid) = none := by
    rw [List.find?_eq_none]
    intro p hp hbeq
    exact h (List.mem_map.mpr ⟨p, hp, by simpa using hbeq⟩)
  rw [h2]
  rfl

theorem adAdd_map_fst (ad : List (String × List String)) (fid cid : String) :
    (adAdd ad fid cid).map Prod.fst =
      if fid ∈ ad.map Prod.fst then ad.map Prod.fst else ad.map Prod.fst ++ [fid] := by
  induction ad with
  | nil => simp [adAdd]
  | cons p ad ih =>
    by_cases hp : p.1 = fid
    · have hp1 : (p.1 == fid) = true := by simpa using hp
      simp [adAdd, hp1, hp]
    · have hp2 : (p.1 == fid) = false := by simpa using hp
      have hne : fid ≠ p.1 := Ne.symm hp
      simp only [adAdd, hp2, Bool.false_eq_true, if_false, List.map_cons, ih, List.mem_cons,
        hne, false_or]
      by_cases hm : fid ∈ ad.map Prod.fst
      · simp [hm]
      · simp [hm]

theorem adAdd_nodup (ad : List (String × List String)) (fid cid : String)
    (h : (ad.map Prod.fst).Nodup) : ((adAdd ad fid cid).map Prod.fst).Nodup := by
  rw [adAdd_map_fst]
  by_cases hm : fid ∈ ad.map Prod.fst
  · rwa [if_pos hm]
  · rw [if_neg hm]
    simp [List.nodup_append, h, hm]

theorem adLookup_adAdd (ad : List (String × List String)) (f0 c0 fid : String) :
    adLookup (adAdd ad f0 c0) fid =
      if fid = f0 then
        (if (adLookup ad f0).contains c0 then adLookup ad f0 else adLookup ad f0 ++ [c0])
      else adLookup ad fid := by
  induction ad with
  | nil =>
    by_cases hf : fid = f0
    · rw [if_pos hf]
      show adLookup [(f0, [c0])] fid = _
      rw [adLookup_cons_self _ _ _ (by simp [hf]), adLookup_nil]
      simp
    · rw [if_neg hf]
      show adLookup [(f0, [c0])] fid = adLookup [] fid
      rw [adLookup_cons_other (f0, [c0]) [] fid (by simpa using fun he => hf (Eq.symm he)),
        adLookup_nil]
  | cons p ad ih =>
    by_cases hp : p.1 = f0
    · have hp1 : (p.1 == f0) = true := by simpa using hp
      unfold adAdd
      rw [if_pos hp1]
      by_cases hf : fid = f0
      · rw [if_pos hf]
        rw [adLookup_cons_self (p.1, if p.2.contains c0 = true then p.2 else p.2 ++ [c0]) ad fid
          (by simp [hp, hf]), adLookup_cons_self p ad f0 hp1]
      · rw [if_neg hf]
        have hne : (p.1 == fid) = false := by
          simp only [beq_eq_false_iff_ne, ne_eq, hp]
          exact fun he => hf (Eq.symm he)
        rw [adLookup_cons_other (p.1, if p.2.contains c0 = true then p.2 else p.2 ++ [c0]) ad fid
          hne, adLookup_cons_other p ad fid hne]
    · have hp2 : (p.1 == f0) = false := by simpa using hp
      unfold adAdd
      rw [if_neg (by simp [hp2])]
      by_cases hq : p.1 = fid
      · have hq1 : (p.1 == fid) = true := by simpa using hq
        have hf : ¬ fid = f0 := fun he => hp (hq.trans he)
        rw [if_neg hf]
        rw [adLookup_cons_self p (adAdd ad f0 c0) fid hq1, adLookup_cons_self p ad fid hq1]
      · have hq2 : (p.1 == fid) = false := by simpa using hq
        rw [adLookup_cons_other p (adAdd ad f0 c0) fid hq2, adLookup_cons_other p ad fid hq2, ih]
        by_cases hf : fid = f0
        · rw [if_pos hf, if_pos hf, adLookup_cons_other p ad f0 hp2]
        · rw [if_neg hf, if_neg hf]

theorem mem_adLookup_adAdd (ad : List (String × List String)) (f0 c0 fid c : String) :
    c ∈ adLookup (adAdd ad f0 c0) fid ↔
      (fid = f0 ∧ c = c0) ∨ c ∈ adLookup ad fid := by
  rw [adLookup_adAdd]
  by_cases hf : fid = f0
  · subst hf
    rw [if_pos rfl]
    by_cases hc : (adLookup ad fid).contains c0
    · rw [if_pos hc]
      have hc2 : c0 ∈ adLookup ad fid := by simpa using hc
      constructor
      · exact fun h => Or.inr h
      · rintro (⟨h1, h2⟩ | h)
        · rw [h2]
          exact hc2
        · exact h
    · rw [if_neg hc]
      simp only [List.mem_append, List.mem_singleton]
      constructor
      · rintro (h | h)
        · exact Or.inr h
        · exact Or.inl ⟨by trivial, h⟩
      · rintro (⟨h1, h2⟩ | h)
        · exact Or.inr h2
        · exact Or.inl h
  · rw [if_neg hf]
    simp [hf]

theorem adRemove_map_fst_subset (ad : List (String × List String)) (f0 c0 : String) :
    ∀ x ∈ (adRemove ad f0 c0).map Prod.fst, x ∈ ad.map Prod.fst := by
  induction ad with
  | nil => simp [adRemove]
  | cons p ad ih =>
    intro x hx
    by_cases hp : p.1 = f0
    · have hp1 : (p.1 == f0) = true := by simpa using hp
      unfold adRemove at hx
      rw [if_pos hp1] at hx
      by_cases hemp : (p.2.filter fun c => c != c0).isEmpty = true
      · rw [if_pos hemp] at hx
        simp only [List.map_cons, List.mem_cons]
        exact Or.inr hx
      · rw [if_neg hemp] at hx
        simp only [List.map_cons, List.mem_cons] at hx ⊢
        exact hx
    · have hp2 : (p.1 == f0) = false := by simpa using hp
      unfold adRemove at hx
      rw [if_neg (by simp [hp2])] at hx
      simp only [List.map_cons, List.mem_cons] at hx ⊢
      rcases hx with hx | hx
      · exact Or.inl hx
      · exact Or.inr (ih x hx)

theorem adRemove_nodup (ad : List (String × List String)) (f0 c0 : String)
    (h : (ad.map Prod.fst).Nodup) : ((adRemove ad f0 c0).map Prod.fst).Nodup := by
  induction ad with
  | nil => simp [adRemove]
  | cons p ad ih =>
    simp only [List.map_cons, List.nodup_cons] at h
    unfold adRemove
    by_cases hp : p.1 = f0
    · have hp1 : (p.1 == f0) = true := by simpa using hp
      rw [if_pos hp1]
      by_cases hemp : (p.2.filter fun c => c != c0).isEmpty = true
      · rw [if_pos hemp]
        exact h.2
      · rw [if_neg hemp]
        simp only [List.map_cons, List.nodup_cons]
        exact h
    · have hp2 : (p.1 == f0) = false := by simpa using hp
      rw [if_neg (by simp [hp2])]
      simp only [List.map_cons, List.nodup_cons]
      exact ⟨fun hm => h.1 (adRemove_map_fst_subset ad f0 c0 p.1 hm), ih h.2⟩

theorem adLookup_adRemove (ad : List (String × List String)) (f0 c0 : String)
    (hnd : (ad.map Prod.fst).Nodup) (fid : String) :
    adLookup (adRemove ad f0 c0) fid =
      if fid = f0 then (adLookup ad f0).filter (fun c => c != c0) else adLookup ad fid := by
  induction ad with
  | nil =>
    by_cases hf : fid = f0 <;> simp [adRemove, adLookup, hf]
  | cons p ad ih =>
    simp only [List.map_cons, List.nodup_cons] at hnd
    by_cases hp : p.1 = f0
    · have hp1 : (p.1 == f0) = true := by simpa using hp
      unfold adRemove
      rw [if_pos hp1]
      by_cases hf : fid = f0
      · rw [if_pos hf, adLookup_cons_self p ad f0 hp1]
        split
        · rename_i hemp
          rw [adLookup_eq_nil_of_not_mem ad fid (by rw [hf, ← hp]; exact hnd.1)]
          rw [List.isEmpty_iff] at hemp
          exact hemp.symm
        · rw [adLookup_cons_self (p.1, p.2.filter fun c => c != c0) ad fid (by simp [hp, hf])]
      · rw [if_neg hf]
        have hne : (p.1 == fid) = false := by
          simp only [beq_eq_false_iff_ne, ne_eq, hp]
          exact fun he => hf (Eq.symm he)
        rw [adLookup_cons_other p ad fid hne]
        split
        · rfl
        · rw [adLookup_cons_other (p.1, p.2.filter fun c => c != c0) ad fid hne]
    · have hp2 : (p.1 == f0) = false := by simpa using hp
      unfold adRemove
      rw [if_neg (by simp [hp2])]
      by_cases hq : p.1 = fid
      · have hq1 : (p.1 == fid) = true := by simpa using hq
        have hf : ¬ fid = f0 := fun he => hp (hq.trans he)
        rw [if_neg hf]
        rw [adLookup_cons_self p (adRemove ad f0 c0) fid hq1, adLookup_cons_self p ad fid hq1]
      · have hq2 : (p.1 == fid) = false := by simpa using hq
        rw [adLookup_cons_other p (adRemove ad f0 c0) fid hq2, adLookup_cons_other p ad fid hq2,
          ih hnd.2]
        by_cases hf : fid = f0
        · rw [if_pos hf, if_pos hf, adLookup_cons_other p ad f0 hp2]
        · rw [if_neg hf, if_neg hf]

theorem adRemoveClient_map_fst_subset (ad : List (String × List String)) (c0 : String) :
    ∀ x ∈ (adRemoveClient ad c0).map Prod.fst, x ∈ ad.map Prod.fst := by
  intro x hx
  unfold adRemoveClient at hx
  rcases List.mem_map.mp hx with ⟨q, hq, hqx⟩
  rcases List.mem_filter.mp hq with ⟨hq2, _⟩
  rcases List.mem_map.mp hq2 with ⟨p, hp, hpq⟩
  subst hqx
  rw [← hpq]
  exact List.mem_map.mpr ⟨p, hp, rfl⟩

theorem adRemoveClient_nodup (ad : List (String × List String)) (c0 : String)
    (h : (ad.map Prod.fst).Nodup) : ((adRemoveClient ad c0).map Prod.fst).Nodup := by
  unfold adRemoveClient
  have h2 : ((ad.map fun p => (p.1, p.2.filter fun c => c != c0)).map Prod.fst).Nodup := by
    rw [List.map_map]
    exact h
  exact (List.Sublist.map Prod.fst (List.filter_sublist _)).nodup h2

theorem adLookup_adRemoveClient (ad : List (String × List String)) (c0 : String)
    (hnd : (ad.map Prod.fst).Nodup) (fid : String) :
    adLookup (adRemoveClient ad c0) fid = (adLookup ad fid).filter (fun c => c != c0) := by
  induction ad with
  | nil => simp [adRemoveClient, adLookup]
  | cons p ad ih =>
    simp only [List.map_cons, List.nodup_cons] at hnd
    have hstep : adRemoveClient (p :: ad) c0 =
        if ((p.2.filter fun c => c != c0).isEmpty) = true then adRemoveClient ad c0
        else (p.1, p.2.filter fun c => c != c0) :: adRemoveClient ad c0 := by
      unfold adRemoveClient
      simp only [List.map_cons, List.filter_cons]
      by_cases hemp : ((p.2.filter fun c => c != c0).isEmpty) = true
      · rw [if_pos hemp]
        have : (!(p.2.filter fun c => c != c0).isEmpty) = false := by simp [hemp]
        simp only [this, Bool.false_eq_true, if_false]
      · rw [if_neg hemp]
        have : (!(p.2.filter fun c => c != c0).isEmpty) = true := by simp [hemp]
        simp only [this, if_true]
    rw [hstep]
    by_cases hq : p.1 = fid
    · have hq1 : (p.1 == fid) = true := by simpa using hq
      rw [adLookup_cons_self p ad fid hq1]
      by_cases hemp : ((p.2.filter fun c => c != c0).isEmpty) = true
      · rw [if_pos hemp]
        rw [List.isEmpty_iff] at hemp
        rw [hemp]
        have hnm : fid ∉ (adRemoveClient ad c0).map Prod.fst := fun hm =>
          hnd.1 (by rw [hq]; exact adRemoveClient_map_fst_subset ad c0 fid hm)
        rw [adLookup_eq_nil_of_not_mem _ _ hnm]
      · rw [if_neg hemp]
        rw [adLookup_cons_self (p.1, p.2.filter fun c => c != c0) (adRemoveClient ad c0) fid hq1]
    · have hq2 : (p.1 == fid) = false := by simpa using hq
      rw [adLookup_cons_other p ad fid hq2]
      by_cases hemp : ((p.2.filter fun c => c != c0).isEmpty) = true
      · rw [if_pos hemp]
        exact ih hnd.2
      · rw [if_neg hemp]
        rw [adLookup_cons_other (p.1, p.2.filter fun c => c != c0) (adRemoveClient ad c0) fid hq2]
        exact ih hnd.2

theorem foldl_adRemoveClient_nodup (ids : List String) (ad : List (String × List String))
    (hnd : (ad.map Prod.fst).Nodup) : ((ids.foldl adRemoveClient ad).map Prod.fst).Nodup := by
  induction ids generalizing ad with
  | nil => exact hnd
  | cons c ids ih => exact ih _ (adRemoveClient_nodup ad c hnd)

theorem adLookup_foldl_adRemoveClient (ids : List String) (ad : List (String × List String))
    (hnd : (ad.map Prod.fst).Nodup) (fid : String) :
    adLookup (ids.foldl adRemoveClient ad) fid =
      (adLookup ad fid).filter (fun c => !(ids.contains c)) := by
  induction ids generalizing ad with
  | nil =>
    simp only [List.foldl_nil]
    have : (adLookup ad fid).filter (fun c => !(([] : List String).contains c)) =
        (adLookup ad fid).filter (fun _ => true) := List.filter_congr (fun x _ => rfl)
    rw [this, List.filter_true]
  | cons c0 ids ih =>
    rw [List.foldl_cons, ih _ (adRemoveClient_nodup ad c0 hnd),
      adLookup_adRemoveClient ad c0 hnd fid, List.filter_filter]
    apply List.filter_congr
    intro x _
    simp only [List.contains_cons, Bool.not_or]
    rw [Bool.and_comm]
    rfl

/-- Whether the sweep at time `now` evicts client `c` of `room`: it holds a
stale session there. -/
def specEvicted (room : Room) (c : String) (now : Nat) : Bool :=
  match getClient room c with
  | some s => staleClient now (c, s)
  | none => false

theorem mem_stale_map_fst (l : List (String × ClientSession)) (now : Nat) (c : String)
    (hnd : (l.map Prod.fst).Nodup) :
    c ∈ (l.filter (staleClient now)).map Prod.fst ↔
      (match (l.find? (fun p => p.1 == c)).map Prod.snd with
       | some s => staleClient now (c, s) = true
       | none => False) := by
  induction l with
  | nil => simp
  | cons p l ih =>
    simp only [List.map_cons, List.nodup_cons] at hnd
    by_cases hq : p.1 = c
    · have hq1 : (p.1 == c) = true := by simpa using hq
      rw [@List.find?_cons_of_pos _ (fun q => q.1 == c) p l hq1]
      show c ∈ (List.filter (staleClient now) (p :: l)).map Prod.fst ↔
        staleClient now (c, p.2) = true
      have hcst : staleClient now (c, p.2) = staleClient now p := rfl
      rw [hcst, List.filter_cons]
      by_cases hst : staleClient now p = true
      · rw [if_pos hst]
        simp only [List.map_cons, List.mem_cons]
        constructor
        · intro _
          exact hst
        · intro _
          exact Or.inl hq.symm
      · rw [if_neg hst]
        constructor
        · intro hm
          exact absurd ((List.Sublist.map Prod.fst (List.filter_sublist l)).mem hm)
            (hq ▸ hnd.1)
        · intro hcontra
          exact absurd hcontra hst
    · have hq2 : ¬ (p.1 == c) = true := by simpa using hq
      rw [@List.find?_cons_of_neg _ (fun q => q.1 == c) p l hq2]
      rw [List.filter_cons]
      have hne : c ≠ p.1 := fun he => hq he.symm
      by_cases hst : staleClient now p = true
      · rw [if_pos hst]
        simp only [List.map_cons, List.mem_cons]
        rw [← ih hnd.2]
        simp [hne]
      · rw [if_neg hst]
        exact ih hnd.2

theorem specEvicted_eq_contains (room : Room) (now : Nat) (c : String)
    (hnd : (room.clients.map Prod.fst).Nodup) :
    (((room.clients.filter (staleClient now)).map Prod.fst).contains c) =
      specEvicted room c now := by
  have h := mem_stale_map_fst room.clients now c hnd
  have hgoal : specEvicted room c now =
      (match (room.clients.find? fun p => p.1 == c).map Prod.snd with
       | some s => staleClient now (c, s)
       | none => false) := rfl
  rw [hgoal]
  cases hf : (room.clients.find? fun p => p.1 == c).map Prod.snd with
  | none =>
    rw [hf] at h
    show ((room.clients.filter (staleClient now)).map Prod.fst).contains c = false
    cases hc : ((room.clients.filter (staleClient now)).map Prod.fst).contains c with
    | false => rfl
    | true => exact absurd (h.mp (List.elem_iff.mp hc)) (fun hx => hx)
  | some s =>
    rw [hf] at h
    show ((room.clients.filter (staleClient now)).map Prod.fst).contains c =
      staleClient now (c, s)
    cases hst : staleClient now (c, s) with
    | true => exact List.elem_iff.mpr (h.mpr hst)
    | false =>
      cases hc : ((room.clients.filter (staleClient now)).map Prod.fst).contains c with
      | false => rfl
      | true =>
        have h3 : staleClient now (c, s) = true := h.mp (List.elem_iff.mp hc)
        rw [hst] at h3
        exact absurd h3 (by simp)

/-! ### Claim theorems about the coordination server -/

/-- C10: for every existing room, request-file succeeds for any client
identity — including one that never joined and has no `ClientSession` —
inserting that identity into `activeDownloads[fileId]` and enqueuing a
`file-request` signal to the host's mailbox; it checks neither that the
client has a session nor that `fileId` is in the room's file list, and fails
only when the room is absent. -/
theorem requestFile_unchecked (rooms : Rooms) (rid cid fid : String) (now : Nat) :
    (lookupRoom rooms rid = none →
      requestFile rooms rid cid fid now = Except.error ApiError.roomNotFound) ∧
    (∀ r, lookupRoom rooms rid = some r →
      requestFile rooms rid cid fid now =
        Except.ok (updateRoom rooms rid (requestFileR cid fid now)) ∧
      lookupRoom (updateRoom rooms rid (requestFileR cid fid now)) rid =
        some (requestFileR cid fid now r) ∧
      cid ∈ adLookup (requestFileR cid fid now r).activeDownloads fid ∧
      (requestFileR cid fid now r).hostSignals = r.hostSignals ++
        [{ fromId := cid, type := "file-request", data := "", fileId := fid,
           timestamp := now }]) := by
  constructor
  · intro h
    unfold requestFile
    rw [h]
  · intro r h
    refine ⟨?_, ?_, ?_, rfl⟩
    · unfold requestFile
      rw [h]
    · rw [lookupRoom_updateRoom_self, h]
      rfl
    · show cid ∈ adLookup (adAdd r.activeDownloads fid cid) fid
      rw [mem_adLookup_adAdd]
      exact Or.inl ⟨rfl, rfl⟩

/-- Witness for C10: a client that never joined room "r" requests "f1" and
lands in that file's active-download set. -/
theorem requestFile_unchecked_witness :
    "C" ∈ adLookup (requestFileR "C" "f1" 5 (newRoom "H" 0)).activeDownloads "f1" :=
  (((requestFile_unchecked (registerHost [] "r" "H" 0) "r" "C" "f1" 5).2
    (newRoom "H" 0) (by decide)).2).2.1

/-- C9 (amended): each successful `setFiles` stamps `filesUpdatedAt` with the
current clock reading (`Date.now()`), so across two successive successful
calls the stamp is non-decreasing whenever the clock is, and strictly
greater exactly when the clock advanced between the calls.  There is no
`+1`-style bump: the original strictly-greater claim fails when both calls
fall in the same millisecond (see the counterexample). -/
theorem setFiles_stamp (rooms : Rooms) (rid : String) (files1 files2 : List FileD)
    (now1 now2 : Nat) (r : Room) (h : lookupRoom rooms rid = some r) :
    ∃ rooms1 rooms2 : Rooms,
      setFiles rooms rid files1 now1 = Except.ok rooms1 ∧
      setFiles rooms1 rid files2 now2 = Except.ok rooms2 ∧
      ((lookupRoom rooms1 rid).map Room.filesUpdatedAt).getD 0 = now1 ∧
      ((lookupRoom rooms2 rid).map Room.filesUpdatedAt).getD 0 = now2 ∧
      (now1 ≤ now2 →
        ((lookupRoom rooms1 rid).map Room.filesUpdatedAt).getD 0 ≤
          ((lookupRoom rooms2 rid).map Room.filesUpdatedAt).getD 0) ∧
      (now1 < now2 →
        ((lookupRoom rooms1 rid).map Room.filesUpdatedAt).getD 0 <
          ((lookupRoom rooms2 rid).map Room.filesUpdatedAt).getD 0) := by
  have h1 : lookupRoom (updateRoom rooms rid (setFilesR files1 now1)) rid =
      some (setFilesR files1 now1 r) := by
    rw [lookupRoom_updateRoom_self, h]
    rfl
  have h2 : lookupRoom (updateRoom (updateRoom rooms rid (setFilesR files1 now1)) rid
      (setFilesR files2 now2)) rid =
      some (setFilesR files2 now2 (setFilesR files1 now1 r)) := by
    rw [lookupRoom_updateRoom_self, h1]
    rfl
  refine ⟨updateRoom rooms rid (setFilesR files1 now1),
    updateRoom (updateRoom rooms rid (setFilesR files1 now1)) rid (setFilesR files2 now2),
    ?_, ?_, ?_, ?_, ?_, ?_⟩
  · unfold setFiles
    rw [h]
  · unfold setFiles
    rw [h1]
  · rw [h1]
    rfl
  · rw [h2]
    rfl
  · intro hc
    rw [h1, h2]
    exact hc
  · intro hc
    rw [h1, h2]
    exact hc

/-- Witness for C9: the clock moving from 5 to 6 between two replacements
gives strictly increasing stamps 5 then 6. -/
theorem setFiles_stamp_witness :
    ∃ rooms1 rooms2 : Rooms,
      setFiles (registerHost [] "r" "H" 0) "r" [] 5 = Except.ok rooms1 ∧
      setFiles rooms1 "r" [] 6 = Except.ok rooms2 ∧
      ((lookupRoom rooms1 "r").map Room.filesUpdatedAt).getD 0 = 5 ∧
      ((lookupRoom rooms2 "r").map Room.filesUpdatedAt).getD 0 = 6 ∧
      (5 ≤ 6 →
        ((lookupRoom rooms1 "r").map Room.filesUpdatedAt).getD 0 ≤
          ((lookupRoom rooms2 "r").map Room.filesUpdatedAt).getD 0) ∧
      (5 < 6 →
        ((lookupRoom rooms1 "r").map Room.filesUpdatedAt).getD 0 <
          ((lookupRoom rooms2 "r").map Room.filesUpdatedAt).getD 0) :=
  setFiles_stamp (registerHost [] "r" "H" 0) "r" [] [] 5 6 (newRoom "H" 0) (by decide)

/-- C9 counterexample: two successful list replacements in the same
millisecond (`Date.now() = 5` for both) leave the stamp unchanged — the
second stamp is not strictly greater than the first, refuting the claim as
stated. -/
theorem setFiles_stamp_counterexample :
    (setFiles (registerHost [] "r" "H" 0) "r" [] 5).isOk = true ∧
    (setFiles ((setFiles (registerHost [] "r" "H" 0) "r" [] 5).toOption.getD []) "r"
      [⟨"f1", "b.txt", 1, "text/plain"⟩] 5).isOk = true ∧
    ¬ (((lookupRoom ((setFiles (registerHost [] "r" "H" 0) "r" [] 5).toOption.getD []) "r").map
          Room.filesUpdatedAt).getD 0 <
        ((lookupRoom ((setFiles ((setFiles (registerHost [] "r" "H" 0) "r" [] 5).toOption.getD
          []) "r" [⟨"f1", "b.txt", 1, "text/plain"⟩] 5).toOption.getD []) "r").map
          Room.filesUpdatedAt).getD 0) := by
  decide

/-- C5: joinClient fails with RoomNotFound exactly when the room is absent or
has no registered host; otherwise it returns the current file list and host
identity, appends a fresh session for a new identity, and for an identity
that already joined it only refreshes the session's liveness — the key set
is unchanged (no duplicate session) and no error is raised. -/
theorem joinRoom_spec (rooms : Rooms) (rid cid : String) (now : Nat) :
    (joinRoom rooms rid cid now = Except.error ApiError.roomNotFound ↔
      lookupRoom rooms rid = none ∨ ∃ r, lookupRoom rooms rid = some r ∧ r.hostId = "") ∧
    (∀ r, lookupRoom rooms rid = some r → r.hostId ≠ "" →
      joinRoom rooms rid cid now =
        Except.ok (⟨r.files, r.hostId⟩, updateRoom rooms rid (joinR cid now)) ∧
      (getClient r cid = none →
        (joinR cid now r).clients = r.clients ++ [(cid, ⟨now, [], 0⟩)]) ∧
      (∀ s, getClient r cid = some s →
        (joinR cid now r).clients.map Prod.fst = r.clients.map Prod.fst ∧
        getClient (joinR cid now r) cid = some { s with lastSeen := now })) := by
  constructor
  · cases hl : lookupRoom rooms rid with
    | none =>
      unfold joinRoom
      rw [hl]
      simp
    | some r =>
      unfold joinRoom
      rw [hl]
      dsimp only
      by_cases hh : r.hostId = ""
      · rw [if_pos (by simpa using hh)]
        simp only [true_iff]
        exact Or.inr ⟨r, rfl, hh⟩
      · rw [if_neg (by simpa using hh)]
        constructor
        · intro hcontra
          exact absurd hcontra (by simp)
        · rintro (hnone | ⟨r2, hr2, hh2⟩)
          · exact absurd hnone (by simp)
          · rw [Option.some_inj] at hr2
            exact absurd (hr2 ▸ hh2) hh
  · intro r hl hh
    refine ⟨?_, ?_, ?_⟩
    · unfold joinRoom
      rw [hl]
      dsimp only
      rw [if_neg (by simpa using hh)]
    · intro hnone
      unfold joinR
      rw [hnone]
      rfl
    · intro s hs
      have hsome : (getClient r cid).isSome = true := by rw [hs]; rfl
      constructor
      · show ((if (getClient r cid).isSome = true then _ else _ : Room)).clients.map Prod.fst
          = r.clients.map Prod.fst
        rw [if_pos hsome]
        exact map_fst_update r.clients cid (fun s2 => { s2 with lastSeen := now })
      · show getClient ((if (getClient r cid).isSome = true then _ else _ : Room)) cid = _
        rw [if_pos hsome]
        rw [getClient_update_self r cid (fun s2 => { s2 with lastSeen := now }), hs]
        rfl

/-- Witness for C5: joining room "r" twice with the same identity leaves the
session-key set unchanged and refreshes liveness. -/
theorem joinRoom_spec_witness :
    (joinR "C" 7 (joinR "C" 3 (newRoom "H" 0))).clients.map Prod.fst =
      (joinR "C" 3 (newRoom "H" 0)).clients.map Prod.fst ∧
    getClient (joinR "C" 7 (joinR "C" 3 (newRoom "H" 0))) "C" = some ⟨7, [], 0⟩ :=
  ((joinRoom_spec (updateRoom (registerHost [] "r" "H" 0) "r" (joinR "C" 3)) "r" "C" 7).2
    (joinR "C" 3 (newRoom "H" 0)) (by decide) (by decide)).2.2 ⟨3, [], 0⟩ (by decide)

/-- C6: relaySignal fails with RoomNotFound exactly when the room is absent;
otherwise host-targeted signals (`toId` equal to the host identity or the
sentinel `"host"`) are appended to the host mailbox, signals to an existing
client session are appended to that session's mailbox, and signals to any
other target are silently dropped while the call still succeeds. -/
theorem relaySignal_spec (rooms : Rooms) (rid fromId toId ty data fileId : String) (now : Nat) :
    (relaySignal rooms rid fromId toId ty data fileId now = Except.error ApiError.roomNotFound ↔
      lookupRoom rooms rid = none) ∧
    (∀ r, lookupRoom rooms rid = some r →
      relaySignal rooms rid fromId toId ty data fileId now =
        Except.ok (updateRoom rooms rid (relayR fromId toId ty data fileId now)) ∧
      ((toId = r.hostId ∨ toId = "host") →
        (relayR fromId toId ty data fileId now r).hostSignals =
          r.hostSignals ++ [mkSignal fromId ty data fileId now] ∧
        (relayR fromId toId ty data fileId now r).clients = r.clients) ∧
      (toId ≠ r.hostId → toId ≠ "host" →
        (relayR fromId toId ty data fileId now r).hostSignals = r.hostSignals ∧
        (∀ s, getClient r toId = some s →
          getClient (relayR fromId toId ty data fileId now r) toId =
            some { s with signals := s.signals ++ [mkSignal fromId ty data fileId now] }) ∧
        (getClient r toId = none →
          relayR fromId toId ty data fileId now r = r))) := by
  constructor
  · cases hl : lookupRoom rooms rid with
    | none =>
      unfold relaySignal
      rw [hl]
      simp
    | some r =>
      unfold relaySignal
      rw [hl]
      dsimp only
      constructor
      · intro hcontra
        exact absurd hcontra (by simp)
      · intro hcontra
        exact absurd hcontra (by simp)
  · intro r hl
    refine ⟨?_, ?_, ?_⟩
    · unfold relaySignal
      rw [hl]
    · intro hto
      have hcond : (toId == r.hostId || toId == "host") = true := by
        rcases hto with hto | hto <;> simp [hto]
      unfold relayR
      rw [if_pos hcond]
      exact ⟨rfl, rfl⟩
    · intro h1 h2
      have hcond : ¬ (toId == r.hostId || toId == "host") = true := by
        simp only [Bool.or_eq_true, beq_iff_eq]
        rintro (he | he)
        · exact h1 he
        · exact h2 he
      refine ⟨?_, ?_, ?_⟩
      · unfold relayR
        rw [if_neg hcond]
        cases hg : getClient r toId with
        | none => rfl
        | some s => rfl
      · intro s hs
        unfold relayR
        rw [if_neg hcond, hs]
        rw [getClient_update_self r toId
          (fun s2 => { s2 with signals := s2.signals ++ [mkSignal fromId ty data fileId now] }),
          hs]
        rfl
      · intro hnone
        unfold relayR
        rw [if_neg hcond, hnone]

/-- Witness for C6: a signal to a vanished client identity "Z" of room "r"
is dropped (state unchanged) and the relay still succeeds. -/
theorem relaySignal_spec_witness :
    relayR "H" "Z" "offer" "sdp" "f1" 9 (newRoom "H2" 0) = newRoom "H2" 0 :=
  (((relaySignal_spec (registerHost [] "r" "H2" 0) "r" "H" "Z" "offer" "sdp" "f1" 9).2
    (newRoom "H2" 0) (by decide)).2.2 (by decide) (by decide)).2.2 (by decide)

/-! ### Mailbox FIFO lemmas (C7) -/

/-- Relay a batch of signals to one target, in order (repeated
`POST /signal` calls, at room level). -/
def relayAllTo (toId : String) (room : Room) (sigs : List Signal) : Room :=
  sigs.foldl (fun rm sg => relayR sg.fromId toId sg.type sg.data sg.fileId sg.timestamp rm) room

theorem mkSignal_eta (sg : Signal) :
    mkSignal sg.fromId sg.type sg.data sg.fileId sg.timestamp = sg := rfl

theorem relayR_sentinel_host (fromId ty data fileId : String) (now : Nat) (room : Room) :
    relayR fromId "host" ty data fileId now room =
      { room with hostSignals := room.hostSignals ++ [mkSignal fromId ty data fileId now] } := by
  unfold relayR
  rw [if_pos (by simp)]

theorem relayAllTo_host (sigs : List Signal) (room : Room) :
    relayAllTo "host" room sigs = { room with hostSignals := room.hostSignals ++ sigs } := by
  induction sigs generalizing room with
  | nil =>
    show room = _
    rw [List.append_nil]
  | cons sg sigs ih =>
    show relayAllTo "host"
      (relayR sg.fromId "host" sg.type sg.data sg.fileId sg.timestamp room) sigs = _
    rw [relayR_sentinel_host, ih, mkSignal_eta, List.append_assoc]
    rfl

theorem relayR_to_client (fromId toId ty data fileId : String) (now : Nat) (room : Room)
    (h1 : toId ≠ room.hostId) (h2 : toId ≠ "host") (s : ClientSession)
    (hs : getClient room toId = some s) :
    relayR fromId toId ty data fileId now room =
      { room with clients := room.clients.map fun p =>
          if p.1 == toId then
            (p.1, { p.2 with signals := p.2.signals ++ [mkSignal fromId ty data fileId now] })
          else p } := by
  unfold relayR
  rw [if_neg (by
    simp only [Bool.or_eq_true, beq_iff_eq]
    rintro (he | he)
    · exact h1 he
    · exact h2 he), hs]

theorem relayAllTo_client (sigs : List Signal) :
    ∀ (room : Room) (cid : String) (s : ClientSession), cid ≠ room.hostId → cid ≠ "host" →
      getClient room cid = some s →
      (relayAllTo cid room sigs).hostId = room.hostId ∧
      getClient (relayAllTo cid room sigs) cid =
        some { s with signals := s.signals ++ sigs } := by
  induction sigs with
  | nil =>
    intro room cid s h1 h2 hs
    refine ⟨rfl, ?_⟩
    show getClient room cid = _
    rw [hs, List.append_nil]
  | cons sg sigs ih =>
    intro room cid s h1 h2 hs
    have hstep := relayR_to_client sg.fromId cid sg.type sg.data sg.fileId sg.timestamp room
      h1 h2 s hs
    have hr2 : getClient (relayR sg.fromId cid sg.type sg.data sg.fileId sg.timestamp room) cid =
        some { s with signals := s.signals ++
          [mkSignal sg.fromId sg.type sg.data sg.fileId sg.timestamp] } := by
      rw [hstep, getClient_update_self room cid
        (fun s2 => { s2 with signals := s2.signals ++
          [mkSignal sg.fromId sg.type sg.data sg.fileId sg.timestamp] }), hs]
      rfl
    have hhost : (relayR sg.fromId cid sg.type sg.data sg.fileId sg.timestamp room).hostId =
        room.hostId := by
      rw [hstep]
    have hrec := ih (relayR sg.fromId cid sg.type sg.data sg.fileId sg.timestamp room) cid
      { s with signals := s.signals ++ [mkSignal sg.fromId sg.type sg.data sg.fileId
        sg.timestamp] }
      (by rw [hhost]; exact h1) h2 hr2
    show (relayAllTo cid
      (relayR sg.fromId cid sg.type sg.data sg.fileId sg.timestamp room) sigs).hostId =
        room.hostId ∧ _
    refine ⟨hrec.1.trans hhost, ?_⟩
    show getClient (relayAllTo cid
      (relayR sg.fromId cid sg.type sg.data sg.fileId sg.timestamp room) sigs) cid = _
    rw [hrec.2, mkSignal_eta, List.append_assoc]
    rfl

theorem clientPollR_of_some (cid : String) (now : Nat) (room : Room) (s2 : ClientSession)
    (h : getClient room cid = some s2) :
    (clientPollR cid now room).1.signals = s2.signals ∧
    getClient (clientPollR cid now room).2 cid =
      some { s2 with lastSeen := now, signals := [] } := by
  unfold clientPollR
  rw [h]
  refine ⟨rfl, ?_⟩
  show getClient { room with clients := room.clients.map fun p =>
      if p.1 == cid then (p.1, { p.2 with lastSeen := now, signals := [] }) else p } cid = _
  rw [getClient_update_self room cid
    (fun s3 => { s3 with lastSeen := now, signals := [] }), h]
  rfl

/-- C7: a poll of any peer mailbox (host or client) returns all its pending
signals in FIFO order of arrival — a batch relayed in order is returned,
appended in that order to the previously pending signals — and atomically
clears the mailbox, so an immediately following poll with no intervening
relays returns an empty signal list (at-most-once delivery). -/
theorem poll_fifo_atomic (rooms : Rooms) (rid cid : String) (r : Room) (s : ClientSession)
    (hl : lookupRoom rooms rid = some r)
    (hs : getClient r cid = some s) (h1 : cid ≠ r.hostId) (h2 : cid ≠ "host")
    (sigsH sigsC : List Signal) (now1 now2 : Nat) :
    (∃ resp rooms2, hostPoll (updateRoom rooms rid (fun r2 => relayAllTo "host" r2 sigsH)) rid
        now1 = Except.ok (resp, rooms2) ∧
      resp.signals = r.hostSignals ++ sigsH ∧
      ∃ resp2 rooms3, hostPoll rooms2 rid now2 = Except.ok (resp2, rooms3) ∧
        resp2.signals = []) ∧
    (∃ resp rooms2, clientPoll (updateRoom rooms rid (fun r2 => relayAllTo cid r2 sigsC)) rid
        cid now1 = Except.ok (resp, rooms2) ∧
      resp.signals = s.signals ++ sigsC ∧
      ∃ resp2 rooms3, clientPoll rooms2 rid cid now2 = Except.ok (resp2, rooms3) ∧
        resp2.signals = []) := by
  constructor
  · have hlk1 : lookupRoom (updateRoom rooms rid (fun r2 => relayAllTo "host" r2 sigsH)) rid =
        some { r with hostSignals := r.hostSignals ++ sigsH } := by
      rw [lookupRoom_updateRoom_self, hl]
      show some (relayAllTo "host" r sigsH) = _
      rw [relayAllTo_host]
    refine ⟨(hostPollR now1 { r with hostSignals := r.hostSignals ++ sigsH }).1,
      updateRoom (updateRoom rooms rid (fun r2 => relayAllTo "host" r2 sigsH)) rid
        (fun r2 => (hostPollR now1 r2).2), ?_, rfl, ?_⟩
    · unfold hostPoll
      rw [hlk1]
    · have hlk2 : lookupRoom (updateRoom
          (updateRoom rooms rid (fun r2 => relayAllTo "host" r2 sigsH)) rid
          (fun r2 => (hostPollR now1 r2).2)) rid =
          some (hostPollR now1 { r with hostSignals := r.hostSignals ++ sigsH }).2 := by
        rw [lookupRoom_updateRoom_self, hlk1]
        rfl
      refine ⟨(hostPollR now2 (hostPollR now1
        { r with hostSignals := r.hostSignals ++ sigsH }).2).1,
        updateRoom (updateRoom (updateRoom rooms rid (fun r2 => relayAllTo "host" r2 sigsH))
          rid (fun r2 => (hostPollR now1 r2).2)) rid (fun r2 => (hostPollR now2 r2).2),
        ?_, rfl⟩
      unfold hostPoll
      rw [hlk2]
  · have hrel := relayAllTo_client sigsC r cid s h1 h2 hs
    have hlk1 : lookupRoom (updateRoom rooms rid (fun r2 => relayAllTo cid r2 sigsC)) rid =
        some (relayAllTo cid r sigsC) := by
      rw [lookupRoom_updateRoom_self, hl]
      rfl
    have hpoll1 := clientPollR_of_some cid now1 (relayAllTo cid r sigsC)
      { s with signals := s.signals ++ sigsC } hrel.2
    refine ⟨(clientPollR cid now1 (relayAllTo cid r sigsC)).1,
      updateRoom (updateRoom rooms rid (fun r2 => relayAllTo cid r2 sigsC)) rid
        (fun r2 => (clientPollR cid now1 r2).2), ?_, hpoll1.1, ?_⟩
    · unfold clientPoll
      rw [hlk1]
    · have hlk2 : lookupRoom (updateRoom
          (updateRoom rooms rid (fun r2 => relayAllTo cid r2 sigsC)) rid
          (fun r2 => (clientPollR cid now1 r2).2)) rid =
          some (clientPollR cid now1 (relayAllTo cid r sigsC)).2 := by
        rw [lookupRoom_updateRoom_self, hlk1]
        rfl
      have hpoll2 := clientPollR_of_some cid now2 (clientPollR cid now1
        (relayAllTo cid r sigsC)).2
        { { s with signals := s.signals ++ sigsC } with lastSeen := now1, signals := [] }
        hpoll1.2
      refine ⟨(clientPollR cid now2 (clientPollR cid now1 (relayAllTo cid r sigsC)).2).1,
        updateRoom (updateRoom (updateRoom rooms rid (fun r2 => relayAllTo cid r2 sigsC)) rid
          (fun r2 => (clientPollR cid now1 r2).2)) rid (fun r2 => (clientPollR cid now2 r2).2),
        ?_, hpoll2.1⟩
      unfold clientPoll
      rw [hlk2]

/-- Witness for C7 (host mailbox half, on a concrete room): one relayed
signal is returned by the next poll and the poll after that is empty. -/
theorem poll_fifo_atomic_witness :
    ∃ resp rooms2, hostPoll (updateRoom (updateRoom (registerHost [] "r" "H" 0) "r"
        (joinR "C" 1)) "r"
        (fun r2 => relayAllTo "host" r2 [⟨"C", "offer", "sdp", "f1", 2⟩])) "r" 3 =
      Except.ok (resp, rooms2) ∧
      resp.signals = (joinR "C" 1 (newRoom "H" 0)).hostSignals ++
        [⟨"C", "offer", "sdp", "f1", 2⟩] ∧
      ∃ resp2 rooms3, hostPoll rooms2 "r" 4 = Except.ok (resp2, rooms3) ∧
        resp2.signals = [] :=
  (poll_fifo_atomic (updateRoom (registerHost [] "r" "H" 0) "r" (joinR "C" 1)) "r" "C"
    (joinR "C" 1 (newRoom "H" 0)) ⟨1, [], 0⟩ (by decide) (by decide) (by decide) (by decide)
    [⟨"C", "offer", "sdp", "f1", 2⟩] [] 3 4).1

/-! ### Staleness sweep lemmas (C4) -/

theorem lookupRoom_eq_none_of_no_key (rooms : Rooms) (rid : String)
    (h : ∀ q ∈ rooms, ¬ (q.1 == rid) = true) : lookupRoom rooms rid = none := by
  unfold lookupRoom
  rw [List.find?_eq_none.mpr h]
  rfl

theorem sweep_keys (rooms : Rooms) (now : Nat) :
    ∀ q2 ∈ sweep rooms now, q2.1 ∈ rooms.map Prod.fst := by
  intro q2 hq2
  rcases List.mem_filterMap.mp hq2 with ⟨q, hq, hfq⟩
  by_cases hst : STALE_TIMEOUT < now - q.2.hostLastSeen
  · rw [if_pos hst] at hfq
    cases hfq
  · rw [if_neg hst] at hfq
    cases hfq
    exact List.mem_map.mpr ⟨q, hq, rfl⟩

theorem lookupRoom_sweep_none (now : Nat) (rid : String) (r : Room)
    (hstale : STALE_TIMEOUT < now - r.hostLastSeen) :
    ∀ rooms : Rooms, (rooms.map Prod.fst).Nodup → lookupRoom rooms rid = some r →
      lookupRoom (sweep rooms now) rid = none := by
  intro rooms
  induction rooms with
  | nil =>
    intro _ hl
    exact absurd hl (by simp [lookupRoom])
  | cons p rooms ih =>
    intro hnd hl
    simp only [List.map_cons, List.nodup_cons] at hnd
    by_cases hp : p.1 = rid
    · have hp1 : (p.1 == rid) = true := by simpa using hp
      have hr : p.2 = r := by
        unfold lookupRoom at hl
        rw [@List.find?_cons_of_pos _ (fun q => q.1 == rid) p rooms hp1] at hl
        simpa using hl
      show lookupRoom (List.filterMap _ (p :: rooms)) rid = none
      rw [List.filterMap_cons]
      rw [if_pos (hr ▸ hstale)]
      apply lookupRoom_eq_none_of_no_key
      intro q2 hq2 hbeq
      have hq2m : q2.1 ∈ rooms.map Prod.fst := sweep_keys rooms now q2 hq2
      rw [show q2.1 = rid from by simpa using hbeq, ← hp] at hq2m
      exact hnd.1 hq2m
    · have hp2 : ¬ (p.1 == rid) = true := by simpa using hp
      have hl2 : lookupRoom rooms rid = some r := by
        unfold lookupRoom at hl ⊢
        rwa [@List.find?_cons_of_neg _ (fun q => q.1 == rid) p rooms hp2] at hl
      show lookupRoom (List.filterMap _ (p :: rooms)) rid = none
      rw [List.filterMap_cons]
      by_cases hst : STALE_TIMEOUT < now - p.2.hostLastSeen
      · rw [if_pos hst]
        exact ih hnd.2 hl2
      · rw [if_neg hst]
        have hres := ih hnd.2 hl2
        unfold lookupRoom at hres ⊢
        rwa [@List.find?_cons_of_neg _ (fun q => q.1 == rid)
          (p.1, sweepClientsR now p.2) (List.filterMap _ rooms) hp2]

/-- C4: a sweep tick at a time when a room's host liveness timestamp is older
than the staleness threshold deletes that room: a subsequent lookup returns
nothing, a subsequent join fails with RoomNotFound, and every client session
that belonged to the room is gone with it. -/
theorem sweep_stale_host_room_gone (rooms : Rooms) (rid : String) (r : Room) (now : Nat)
    (hnd : (rooms.map Prod.fst).Nodup)
    (hl : lookupRoom rooms rid = some r)
    (hstale : STALE_TIMEOUT < now - r.hostLastSeen) :
    lookupRoom (sweep rooms now) rid = none ∧
    (∀ cid now2, joinRoom (sweep rooms now) rid cid now2 =
      Except.error ApiError.roomNotFound) ∧
    (∀ cid, ((lookupRoom (sweep rooms now) rid).bind fun r2 => getClient r2 cid) = none) := by
  have hnone : lookupRoom (sweep rooms now) rid = none :=
    lookupRoom_sweep_none now rid r hstale rooms hnd hl
  refine ⟨hnone, ?_, ?_⟩
  · intro cid now2
    unfold joinRoom
    rw [hnone]
  · intro cid
    rw [hnone]
    rfl

/-- Witness for C4: a room whose host was last seen at time 0 is deleted by a
sweep at time 30001 and a join then fails. -/
theorem sweep_stale_host_room_gone_witness :
    lookupRoom (sweep (registerHost [] "r" "H" 0) 30001) "r" = none ∧
    (∀ cid now2, joinRoom (sweep (registerHost [] "r" "H" 0) 30001) "r" cid now2 =
      Except.error ApiError.roomNotFound) ∧
    (∀ cid, ((lookupRoom (sweep (registerHost [] "r" "H" 0) 30001) "r").bind
      fun r2 => getClient r2 cid) = none) :=
  sweep_stale_host_room_gone (registerHost [] "r" "H" 0) "r" (newRoom "H" 0) 30001
    (by decide) (by decide) (by decide)

/-! ### The activeDownloads accounting invariant (C3) -/

/-- The room-level coordinator operations (each endpoint of
src/server/index.js acting on one existing room, plus one firing of the
per-room half of the stale sweep). -/
inductive RoomOp where
  | join (cid : String) (now : Nat)
  | clientPoll (cid : String) (now : Nat)
  | hostPoll (now : Nat)
  | hostBeat (hid : String) (now : Nat)
  | setFiles (files : List FileD) (now : Nat)
  | relay (fromId toId ty data fileId : String) (now : Nat)
  | requestFile (cid fid : String) (now : Nat)
  | downloadComplete (cid fid : String)
  | leave (cid : String)
  | sweep (now : Nat)
  deriving Repr, DecidableEq

/-- Room-level semantics of each operation, as in src/server/index.js. -/
def applyOp (room : Room) : RoomOp → Room
  | .join cid now => joinR cid now room
  | .clientPoll cid now => (clientPollR cid now room).2
  | .hostPoll now => (hostPollR now room).2
  | .hostBeat hid now => { room with hostId := hid, hostLastSeen := now }
  | .setFiles files now => setFilesR files now room
  | .relay fromId toId ty data fileId now => relayR fromId toId ty data fileId now room
  | .requestFile cid fid now => requestFileR cid fid now room
  | .downloadComplete cid fid => downloadCompleteR cid fid room
  | .leave cid => leaveR cid room
  | .sweep now => sweepClientsR now room

/-- Replay a sequence of coordinator operations on one room. -/
def replayRoom (room : Room) (ops : List RoomOp) : Room :=
  ops.foldl applyOp room

/-- Modelled from the spec sentence for C3: after one more operation, does
client `c` count as an active requester of file `f`?  `request-file` for
`(c, f)` makes it so; a matching `download-complete`, a `leave` of `c`, or a
sweep that evicts `c` (i.e. finds `c` holding a stale session in the
pre-state `room`) revokes it; every other operation leaves it unchanged. -/
def requestedStep (room : Room) (f c : String) (sa : Bool) : RoomOp → Bool
  | .requestFile c2 f2 _ => if c2 = c ∧ f2 = f then true else sa
  | .downloadComplete c2 f2 => if c2 = c ∧ f2 = f then false else sa
  | .leave c2 => if c2 = c then false else sa
  | .sweep now => if specEvicted room c now = true then false else sa
  | _ => sa

/-- Whether `c` has an unrevoked `request-file` for `f` after the whole
sequence, tracking the pre-state of each step for the eviction test. -/
def requestedRun (room : Room) (f c : String) (sa : Bool) : List RoomOp → Bool
  | [] => sa
  | op :: ops => requestedRun (applyOp room op) f c (requestedStep room f c sa op) ops

/-- The structural invariant the server maintains on every room it creates:
session keys are unique (clients is a JavaScript `Map`) and so are
activeDownloads keys. -/
def roomWF (room : Room) : Prop :=
  (room.clients.map Prod.fst).Nodup ∧ (room.activeDownloads.map Prod.fst).Nodup

theorem not_mem_keys_of_getClient_none (room : Room) (cid : String)
    (h : getClient room cid = none) : cid ∉ room.clients.map Prod.fst := by
  intro hm
  rcases List.mem_map.mp hm with ⟨p, hp, hpc⟩
  unfold getClient at h
  cases hf : room.clients.find? (fun p => p.1 == cid) with
  | none =>
    rw [List.find?_eq_none] at hf
    exact hf p hp (by simp [hpc])
  | some q =>
    rw [hf] at h
    simp at h

theorem clients_nodup_append (room : Room) (cid : String) (s : ClientSession)
    (hnd : (room.clients.map Prod.fst).Nodup) (hnm : cid ∉ room.clients.map Prod.fst) :
    ((room.clients ++ [(cid, s)]).map Prod.fst).Nodup := by
  rw [List.map_append]
  simp [List.nodup_append, hnd, hnm]

theorem roomWF_applyOp (room : Room) (op : RoomOp) (h : roomWF room) :
    roomWF (applyOp room op) := by
  obtain ⟨hc, ha⟩ := h
  cases op with
  | join cid now =>
    show roomWF (joinR cid now room)
    unfold joinR
    by_cases hg : (getClient room cid).isSome = true
    · rw [if_pos hg]
      refine ⟨?_, ha⟩
      show ((room.clients.map fun p =>
        if p.1 == cid then (p.1, { p.2 with lastSeen := now }) else p).map Prod.fst).Nodup
      rw [map_fst_update room.clients cid (fun s2 => { s2 with lastSeen := now })]
      exact hc
    · rw [if_neg hg]
      refine ⟨?_, ha⟩
      exact clients_nodup_append room cid _ hc
        (not_mem_keys_of_getClient_none room cid (Option.not_isSome_iff_eq_none.mp hg))
  | clientPoll cid now =>
    show roomWF (clientPollR cid now room).2
    unfold clientPollR
    cases hg : getClient room cid with
    | none =>
      refine ⟨?_, ha⟩
      exact clients_nodup_append room cid _ hc (not_mem_keys_of_getClient_none room cid hg)
    | some s =>
      refine ⟨?_, ha⟩
      show ((room.clients.map fun p =>
        if p.1 == cid then (p.1, { p.2 with lastSeen := now, signals := [] }) else p).map
          Prod.fst).Nodup
      rw [map_fst_update room.clients cid (fun s2 => { s2 with lastSeen := now, signals := [] })]
      exact hc
  | hostPoll now => exact ⟨hc, ha⟩
  | hostBeat hid now => exact ⟨hc, ha⟩
  | setFiles files now => exact ⟨hc, ha⟩
  | relay fromId toId ty data fileId now =>
    show roomWF (relayR fromId toId ty data fileId now room)
    unfold relayR
    split
    · exact ⟨hc, ha⟩
    · cases hg : getClient room toId with
      | none => exact ⟨hc, ha⟩
      | some s =>
        refine ⟨?_, ha⟩
        show ((room.clients.map fun p =>
          if p.1 == toId then
            (p.1, { p.2 with signals := p.2.signals ++
              [mkSignal fromId ty data fileId now] }) else p).map Prod.fst).Nodup
        rw [map_fst_update room.clients toId (fun s2 => { s2 with signals := s2.signals ++
          [mkSignal fromId ty data fileId now] })]
        exact hc
  | requestFile cid fid now =>
    exact ⟨hc, adAdd_nodup room.activeDownloads fid cid ha⟩
  | downloadComplete cid fid =>
    exact ⟨hc, adRemove_nodup room.activeDownloads fid cid ha⟩
  | leave cid =>
    refine ⟨?_, adRemoveClient_nodup room.activeDownloads cid ha⟩
    exact ((List.filter_sublist room.clients).map Prod.fst).nodup hc
  | sweep now =>
    refine ⟨?_, foldl_adRemoveClient_nodup _ room.activeDownloads ha⟩
    exact ((List.filter_sublist room.clients).map Prod.fst).nodup hc

theorem joinR_activeDownloads (cid : String) (now : Nat) (room : Room) :
    (joinR cid now room).activeDownloads = room.activeDownloads := by
  unfold joinR
  split <;> rfl

theorem clientPollR_activeDownloads (cid : String) (now : Nat) (room : Room) :
    (clientPollR cid now room).2.activeDownloads = room.activeDownloads := by
  unfold clientPollR
  cases getClient room cid <;> rfl

theorem relayR_activeDownloads (fromId toId ty data fileId : String) (now : Nat) (room : Room) :
    (relayR fromId toId ty data fileId now room).activeDownloads = room.activeDownloads := by
  unfold relayR
  split
  · rfl
  · cases getClient room toId <;> rfl

/-- One coordinator operation keeps the activeDownloads membership for
`(f, c)` in lockstep with the spec-side accounting of C3. -/
theorem requestedStep_correct (room : Room) (op : RoomOp) (f c : String) (sa : Bool)
    (h : roomWF room) (hsa : c ∈ adLookup room.activeDownloads f ↔ sa = true) :
    c ∈ adLookup (applyOp room op).activeDownloads f ↔
      requestedStep room f c sa op = true := by
  cases op with
  | join cid now =>
    show c ∈ adLookup (joinR cid now room).activeDownloads f ↔ sa = true
    rw [joinR_activeDownloads]
    exact hsa
  | clientPoll cid now =>
    show c ∈ adLookup (clientPollR cid now room).2.activeDownloads f ↔ sa = true
    rw [clientPollR_activeDownloads]
    exact hsa
  | hostPoll now => exact hsa
  | hostBeat hid now => exact hsa
  | setFiles files now => exact hsa
  | relay fromId toId ty data fileId now =>
    show c ∈ adLookup (relayR fromId toId ty data fileId now room).activeDownloads f ↔
      sa = true
    rw [relayR_activeDownloads]
    exact hsa
  | requestFile c2 f2 now =>
    show c ∈ adLookup (adAdd room.activeDownloads f2 c2) f ↔
      (if c2 = c ∧ f2 = f then true else sa) = true
    rw [mem_adLookup_adAdd]
    by_cases hcf : c2 = c ∧ f2 = f
    · rw [if_pos hcf]
      simp only [iff_true]
      exact Or.inl ⟨hcf.2.symm, hcf.1.symm⟩
    · rw [if_neg hcf]
      constructor
      · rintro (⟨h1, h2⟩ | hm)
        · exact absurd ⟨h2.symm, h1.symm⟩ hcf
        · exact hsa.mp hm
      · intro hb
        exact Or.inr (hsa.mpr hb)
  | downloadComplete c2 f2 =>
    show c ∈ adLookup (adRemove room.activeDownloads f2 c2) f ↔
      (if c2 = c ∧ f2 = f then false else sa) = true
    rw [adLookup_adRemove room.activeDownloads f2 c2 h.2 f]
    by_cases hf : f = f2
    · rw [if_pos hf]
      by_cases hc2 : c2 = c
      · have hcf : c2 = c ∧ f2 = f := ⟨hc2, hf.symm⟩
        rw [if_pos hcf]
        constructor
        · intro hm
          rcases List.mem_filter.mp hm with ⟨_, hne⟩
          rw [hc2] at hne
          simp at hne
        · intro hb
          exact absurd hb (by simp)
      · have hcf : ¬ (c2 = c ∧ f2 = f) := fun hx => hc2 hx.1
        rw [if_neg hcf]
        constructor
        · intro hm
          rcases List.mem_filter.mp hm with ⟨hm2, _⟩
          exact hsa.mp (hf ▸ hm2)
        · intro hb
          refine List.mem_filter.mpr ⟨hf ▸ hsa.mpr hb, ?_⟩
          simp only [bne_iff_ne, ne_eq]
          exact fun he => hc2 he.symm
    · rw [if_neg hf]
      have hcf : ¬ (c2 = c ∧ f2 = f) := fun hx => hf hx.2.symm
      rw [if_neg hcf]
      exact hsa
  | leave c2 =>
    show c ∈ adLookup (adRemoveClient room.activeDownloads c2) f ↔
      (if c2 = c then false else sa) = true
    rw [adLookup_adRemoveClient room.activeDownloads c2 h.2 f]
    by_cases hc2 : c2 = c
    · rw [if_pos hc2]
      constructor
      · intro hm
        rcases List.mem_filter.mp hm with ⟨_, hne⟩
        rw [hc2] at hne
        simp at hne
      · intro hb
        exact absurd hb (by simp)
    · rw [if_neg hc2]
      constructor
      · intro hm
        exact hsa.mp (List.mem_filter.mp hm).1
      · intro hb
        refine List.mem_filter.mpr ⟨hsa.mpr hb, ?_⟩
        simp only [bne_iff_ne, ne_eq]
        exact fun he => hc2 he.symm
  | sweep now =>
    show c ∈ adLookup (((room.clients.filter (staleClient now)).map Prod.fst).foldl
        adRemoveClient room.activeDownloads) f ↔
      (if specEvicted room c now = true then false else sa) = true
    rw [adLookup_foldl_adRemoveClient _ room.activeDownloads h.2 f]
    have hcont := specEvicted_eq_contains room now c h.1
    by_cases hev : specEvicted room c now = true
    · rw [if_pos hev]
      constructor
      · intro hm
        rcases List.mem_filter.mp hm with ⟨_, hne⟩
        rw [hcont, hev] at hne
        simp at hne
      · intro hb
        exact absurd hb (by simp)
    · rw [if_neg hev]
      have hev2 : specEvicted room c now = false := by
        cases hx : specEvicted room c now with
        | false => rfl
        | true => exact absurd hx hev
      constructor
      · intro hm
        exact hsa.mp (List.mem_filter.mp hm).1
      · intro hb
        refine List.mem_filter.mpr ⟨hsa.mpr hb, ?_⟩
        rw [hcont, hev2]
        rfl

theorem requestedRun_correct (ops : List RoomOp) :
    ∀ (room : Room) (sa : Bool) (f c : String), roomWF room →
      (c ∈ adLookup room.activeDownloads f ↔ sa = true) →
      (c ∈ adLookup (replayRoom room ops).activeDownloads f ↔
        requestedRun room f c sa ops = true) := by
  induction ops with
  | nil => exact fun room sa f c _ hsa => hsa
  | cons op ops ih =>
    intro room sa f c h hsa
    exact ih (applyOp room op) (requestedStep room f c sa op) f c (roomWF_applyOp room op h)
      (requestedStep_correct room op f c sa h hsa)

/-- C3: starting from a freshly created room, after any sequence of
coordinator operations, a client `c` is in `activeDownloads[f]` exactly when
it has issued a `request-file` for `f` with no subsequent matching
`download-complete`, `leave`, or stale-timeout eviction of `c` — the
accounting index is exactly the set of outstanding requesters. -/
theorem activeDownloads_exact_requesters (hid : String) (t0 : Nat) (ops : List RoomOp)
    (f c : String) :
    c ∈ adLookup (replayRoom (newRoom hid t0) ops).activeDownloads f ↔
      requestedRun (newRoom hid t0) f c false ops = true :=
  requestedRun_correct ops (newRoom hid t0) false f c ⟨by simp [newRoom], by simp [newRoom]⟩
    (by simp [newRoom, adLookup])

end P2PShare
